import Mathlib

/-
Verification of the markdown-to-HTML renderer and the surrounding tool glue of
the Process Capability AI Agent repository.  Strings are modelled as lists of
characters; each Python regular-expression substitution is embedded as a
dedicated matcher together with a generic left-to-right scanning pass that
mirrors the semantics of re.sub (leftmost match, replacement emitted, scanning
resumes after the match, replacements are never rescanned).
-/

namespace PCA

/-- Python whitespace (str.strip and the regex class backslash-s), ASCII part. -/
def pySpace (c : Char) : Bool :=
  c = ' ' || c = '\t' || c = '\n' || c = '\r' || c = '\x0b' || c = '\x0c'

/-- Python str.strip: drop leading and trailing whitespace. -/
def stripL (cs : List Char) : List Char :=
  ((cs.dropWhile pySpace).reverse.dropWhile pySpace).reverse

/-- Python content.split on the newline character: always at least one part. -/
def splitNl : List Char → List (List Char)
  | [] => [[]]
  | c :: cs =>
    if c = '\n' then [] :: splitNl cs
    else
      match splitNl cs with
      | [] => [[c]]
      | l :: ls => (c :: l) :: ls

/-- Decidable prefix test on character lists. -/
def isPrefixL : List Char → List Char → Bool
  | [], _ => true
  | _ :: _, [] => false
  | p :: ps, c :: cs => p = c && isPrefixL ps cs

/-- Decidable substring test (Python `in` on str). -/
def containsL (pat : List Char) : List Char → Bool
  | [] => isPrefixL pat []
  | c :: cs => isPrefixL pat (c :: cs) || containsL pat cs

/-- Decidable suffix test (Python str.endswith). -/
def isSuffixL (pat cs : List Char) : Bool :=
  isPrefixL pat.reverse cs.reverse

/-- One global regex substitution pass in the style of Python re.sub: scan the
input left to right; `m c cs` decides whether a match starts at the current
character `c` (with the rest of the input `cs`), returning the text the
replacement needs and how many further characters of `cs` the match consumes;
on a match the replacement is emitted and scanning resumes after the match.
The fuel argument only bounds the recursion; every call supplies more fuel
than the input length, so the fuel never runs out. -/
def scanSub (m : Char → List Char → Option (List Char × Nat))
    (repl : List Char → List Char) : Nat → List Char → List Char
  | 0, cs => cs
  | _ + 1, [] => []
  | f + 1, c :: cs =>
    match m c cs with
    | some (g, k) => repl g ++ scanSub m repl f (cs.drop k)
    | none => c :: scanSub m repl f cs

def runSub (m : Char → List Char → Option (List Char × Nat))
    (repl : List Char → List Char) (cs : List Char) : List Char :=
  scanSub m repl (cs.length + 1) cs

/-- Substitution pass for patterns with a one-character lookbehind: the scanner
additionally threads the character of the original string that precedes the
current position (none at the start of the string). -/
def scanSubP (m : Option Char → Char → List Char → Option (List Char × Nat))
    (repl : List Char → List Char) : Nat → Option Char → List Char → List Char
  | 0, _, cs => cs
  | _ + 1, _, [] => []
  | f + 1, p, c :: cs =>
    match m p c cs with
    | some (g, k) => repl g ++ scanSubP m repl f (some ((cs.take k).getLastD c)) (cs.drop k)
    | none => c :: scanSubP m repl f (some c) cs

def runSubP (m : Option Char → Char → List Char → Option (List Char × Nat))
    (repl : List Char → List Char) (cs : List Char) : List Char :=
  scanSubP m repl (cs.length + 1) none cs

/-! ### preprocess_markdown

Four substitutions, applied in order, then str.strip.  Each embeds one re.sub
pattern of the source, with the backtracking of the original pattern resolved
to its deterministic effect (every quantified subpattern in these patterns is
followed by a character its own character class excludes, so backtracking
never produces a different match). -/

/-- Pattern: whitespace-run, 2 or 3 hash marks, whitespace-run (the hash run in
the input must be exactly 2 or 3 long: with 4 or more hashes the required
whitespace after 2 or 3 hashes is another hash and the match fails). -/
def matchHdr (c : Char) (cs : List Char) : Option (List Char × Nat) :=
  let full := c :: cs
  let w1 := full.takeWhile pySpace
  let r1 := full.dropWhile pySpace
  let hs := r1.takeWhile (fun x => x = '#')
  let r2 := r1.dropWhile (fun x => x = '#')
  if hs.length = 2 ∨ hs.length = 3 then
    let w2 := r2.takeWhile pySpace
    if w2.length = 0 then none
    else some (hs, w1.length + hs.length + w2.length - 1)
  else none

def replHdr (g : List Char) : List Char := '\n' :: '\n' :: (g ++ [' '])

/-- Pattern: whitespace-run, then a dash, whitespace-run, two asterisks; the
capture keeps the dash, its following whitespace and the asterisks. -/
def matchDash (c : Char) (cs : List Char) : Option (List Char × Nat) :=
  let full := c :: cs
  let w1 := full.takeWhile pySpace
  if w1.length = 0 then none
  else
    match full.dropWhile pySpace with
    | '-' :: r2 =>
      let w2 := r2.takeWhile pySpace
      if w2.length = 0 then none
      else
        match r2.dropWhile pySpace with
        | '*' :: '*' :: _ =>
          some ('-' :: (w2 ++ ['*', '*']), w1.length + 1 + w2.length + 2 - 1)
        | _ => none
    | _ => none

def replDash (g : List Char) : List Char := '\n' :: g

/-- Pattern: whitespace-run, then digits, a dot, whitespace-run, two
asterisks; the capture starts at the digits. -/
def matchNumBold (c : Char) (cs : List Char) : Option (List Char × Nat) :=
  let full := c :: cs
  let w1 := full.takeWhile pySpace
  if w1.length = 0 then none
  else
    let r1 := full.dropWhile pySpace
    let ds := r1.takeWhile Char.isDigit
    if ds.length = 0 then none
    else
      match r1.dropWhile Char.isDigit with
      | '.' :: r2 =>
        let w2 := r2.takeWhile pySpace
        if w2.length = 0 then none
        else
          match r2.dropWhile pySpace with
          | '*' :: '*' :: _ =>
            some (ds ++ '.' :: (w2 ++ ['*', '*']),
                  w1.length + ds.length + 1 + w2.length + 2 - 1)
          | _ => none
      | _ => none

def replNumBold (g : List Char) : List Char := '\n' :: '\n' :: g

/-- Pattern: whitespace-run then a greater-than sign. -/
def matchGt (c : Char) (cs : List Char) : Option (List Char × Nat) :=
  let full := c :: cs
  let w1 := full.takeWhile pySpace
  if w1.length = 0 then none
  else
    match full.dropWhile pySpace with
    | '>' :: _ => some (['>'], w1.length + 1 - 1)
    | _ => none

def replGt (g : List Char) : List Char := '\n' :: '\n' :: g

/-- preprocess_markdown from src/report_generator.py. -/
def preprocessL (cs : List Char) : List Char :=
  stripL (runSub matchGt replGt
    (runSub matchNumBold replNumBold
      (runSub matchDash replDash
        (runSub matchHdr replHdr cs))))

/-! ### format_inline -/

/-- Case-insensitive literal-prefix test (the pattern is given lowercase). -/
def prefixCI : List Char → List Char → Bool
  | [], _ => true
  | _ :: _, [] => false
  | p :: ps, c :: cs => p = Char.toLower c && prefixCI ps cs

/-- The character class of the URL patterns: not whitespace, angle bracket or
quote. -/
def urlChar (c : Char) : Bool :=
  !(pySpace c) && c ≠ '<' && c ≠ '>' && c ≠ '"' && c ≠ '\''

/-- The alternation png, jpg, jpeg, gif, bmp, webp, svg, case-insensitive and
in the order of the source pattern; returns how many characters the first
matching alternative consumes. -/
def extMatch (cs : List Char) : Option Nat :=
  if prefixCI "png".data cs then some 3
  else if prefixCI "jpg".data cs then some 3
  else if prefixCI "jpeg".data cs then some 4
  else if prefixCI "gif".data cs then some 3
  else if prefixCI "bmp".data cs then some 3
  else if prefixCI "webp".data cs then some 4
  else if prefixCI "svg".data cs then some 3
  else none

/-- Length of the scheme part http(s):// at the start of `full`,
case-insensitively (the image-URL rule carries re.IGNORECASE); the optional s
is tried greedily first, exactly as the regex engine does. -/
def schemeLenCI (full : List Char) : Option Nat :=
  if prefixCI "http".data full then
    let r := full.drop 4
    match r with
    | c :: r2 =>
      if (c = 's' ∨ c = 'S') ∧ isPrefixL "://".data r2 then some 8
      else if isPrefixL "://".data r then some 7
      else none
    | [] => none
  else none

/-- Length of the scheme part http(s):// at the start of `full`, case
sensitive (the second URL rule has no IGNORECASE flag). -/
def schemeLenCS (full : List Char) : Option Nat :=
  if isPrefixL "http".data full then
    let r := full.drop 4
    if isPrefixL "s://".data r then some 8
    else if isPrefixL "://".data r then some 7
    else none
  else none

/-- Image-URL rule: scheme, then a greedy run of URL characters backtracked to
the last position followed by a dot and an image extension.  The greedy class
run first consumes the maximal run; the engine then gives characters back one
at a time, so the chosen dot position is the largest `j` in the run with an
extension after it (the dot and the extension letters are themselves URL
characters, hence inside the maximal run). -/
def matchUrl1 (c : Char) (cs : List Char) : Option (List Char × Nat) :=
  let full := c :: cs
  match schemeLenCI full with
  | none => none
  | some sl =>
    let body := (full.drop sl).takeWhile urlChar
    let cands := (List.range body.length).filterMap (fun j =>
      if 1 ≤ j ∧ body.getD j ' ' = '.' then
        match extMatch (body.drop (j + 1)) with
        | some e => some (j, e)
        | none => none
      else none)
    match cands.getLast? with
    | some (j, e) =>
      let len := sl + j + 1 + e
      some (full.take len, len - 1)
    | none => none

/-- Remaining-URL rule: lookbehind forbids a preceding quote or equals sign;
the trailing negative lookahead for a quote can only force the greedy class
run to give back one character (the run never contains a quote), or kill the
match when the run has a single character. -/
def matchUrl2 (p : Option Char) (c : Char) (cs : List Char) : Option (List Char × Nat) :=
  if c = 'h' then
    if p = some '"' ∨ p = some '\'' ∨ p = some '=' then none
    else
      let full := c :: cs
      match schemeLenCS full with
      | none => none
      | some sl =>
        let body := (full.drop sl).takeWhile urlChar
        if body.length = 0 then none
        else
          let nxt := (full.drop (sl + body.length)).head?
          let bl := if nxt = some '"' ∨ nxt = some '\'' then body.length - 1 else body.length
          if bl = 0 then none
          else some (full.take (sl + bl), sl + bl - 1)
  else none

def replImg1 (g : List Char) : List Char :=
  "<img src=\"".data ++ g ++ "\" alt=\"Image\" class=\"embedded-image\">".data

def replImg2 (g : List Char) : List Char :=
  "<img src=\"".data ++ g ++ "\" alt=\"Embedded content\" class=\"embedded-image\">".data

/-- Index of the first occurrence of the two-character sequence `a b`. -/
def findPairIdx (a b : Char) : List Char → Option Nat
  | [] => none
  | [_] => none
  | x :: y :: rest =>
    if x = a ∧ y = b then some 0
    else (findPairIdx a b (y :: rest)).map (· + 1)

/-- Index of the first occurrence of `a b` at position 1 or later: the lazy
one-or-more group before the closing delimiter needs at least one character,
so a closing delimiter immediately after the opening one is skipped. -/
def findPairFrom1 (a b : Char) : List Char → Option Nat
  | [] => none
  | _ :: rest => (findPairIdx a b rest).map (· + 1)

/-- Inline LaTeX rule: backslash-paren, lazy group, backslash-close-paren; the
lazy group stops at the first closing delimiter and may not contain a
newline (the dot does not match newline). -/
def matchTexInline (c : Char) (cs : List Char) : Option (List Char × Nat) :=
  if c = '\\' then
    match cs with
    | '(' :: r =>
      match findPairFrom1 '\\' ')' r with
      | some t => if (r.take t).contains '\n' then none else some (r.take t, 1 + t + 2)
      | none => none
    | _ => none
  else none

/-- Display LaTeX rule: backslash-bracket delimiters, otherwise as the inline
rule. -/
def matchTexDisplay (c : Char) (cs : List Char) : Option (List Char × Nat) :=
  if c = '\\' then
    match cs with
    | '[' :: r =>
      match findPairFrom1 '\\' ']' r with
      | some t => if (r.take t).contains '\n' then none else some (r.take t, 1 + t + 2)
      | none => none
    | _ => none
  else none

def replTexInline (g : List Char) : List Char :=
  "<span class=\"math-inline\">\\(".data ++ g ++ "\\)</span>".data

def replTexDisplay (g : List Char) : List Char :=
  "<div class=\"math-display\">\\[".data ++ g ++ "\\]</div>".data

/-- Single-dollar rule: a dollar not preceded by a backslash, a lazy nonempty
run of non-dollar characters, a closing dollar not followed by another
dollar.  The group cannot extend past the closing dollar, so a failing
lookahead kills the match at this position. -/
def matchDollar (p : Option Char) (c : Char) (cs : List Char) : Option (List Char × Nat) :=
  if c = '$' then
    if p = some '\\' then none
    else
      let g := cs.takeWhile (fun x => x ≠ '$')
      if g.length = 0 then none
      else
        match cs.drop g.length with
        | '$' :: rest =>
          match rest.head? with
          | some '$' => none
          | _ => some (g, g.length + 1)
        | _ => none
  else none

/-- Double-dollar rule: two dollars, a lazy nonempty newline-free group, two
dollars; the group may itself contain single dollars. -/
def matchDD (c : Char) (cs : List Char) : Option (List Char × Nat) :=
  if c = '$' then
    match cs with
    | '$' :: r =>
      match findPairFrom1 '$' '$' r with
      | some t => if (r.take t).contains '\n' then none else some (r.take t, 1 + t + 2)
      | none => none
    | _ => none
  else none

/-- Bold rule: two asterisks, a greedy nonempty run of non-asterisks, two
asterisks. -/
def matchBold (c : Char) (cs : List Char) : Option (List Char × Nat) :=
  if c = '*' then
    match cs with
    | '*' :: r =>
      let g := r.takeWhile (fun x => x ≠ '*')
      if g.length = 0 then none
      else
        match r.drop g.length with
        | '*' :: '*' :: _ => some (g, 1 + g.length + 2)
        | _ => none
    | _ => none
  else none

def replBold (g : List Char) : List Char := "<strong>".data ++ g ++ "</strong>".data

/-- Italic rule: one asterisk, a greedy nonempty run of non-asterisks, one
asterisk. -/
def matchEm (c : Char) (cs : List Char) : Option (List Char × Nat) :=
  if c = '*' then
    let g := cs.takeWhile (fun x => x ≠ '*')
    if g.length = 0 then none
    else
      match cs.drop g.length with
      | '*' :: _ => some (g, g.length + 1)
      | _ => none
  else none

def replEm (g : List Char) : List Char := "<em>".data ++ g ++ "</em>".data

/-- Code rule: backtick-delimited nonempty run of non-backticks. -/
def matchCode (c : Char) (cs : List Char) : Option (List Char × Nat) :=
  if c = '`' then
    let g := cs.takeWhile (fun x => x ≠ '`')
    if g.length = 0 then none
    else
      match cs.drop g.length with
      | '`' :: _ => some (g, g.length + 1)
      | _ => none
  else none

def replCode (g : List Char) : List Char := "<code>".data ++ g ++ "</code>".data

/-- Final step of format_inline: replace every lowercase sigma by its HTML
entity. -/
def sigmaSub : List Char → List Char
  | [] => []
  | c :: cs => (if c = 'σ' then "&sigma;".data else [c]) ++ sigmaSub cs

/-- format_inline from src/report_generator.py: the ten substitutions in
source order, each pass operating on the output of the previous one. -/
def formatInline (t : List Char) : List Char :=
  let t1 := runSub matchUrl1 replImg1 t
  let t2 := runSubP matchUrl2 replImg2 t1
  let t3 := runSub matchTexInline replTexInline t2
  let t4 := runSub matchTexDisplay replTexDisplay t3
  let t5 := runSubP matchDollar replTexInline t4
  let t6 := runSub matchDD replTexDisplay t5
  let t7 := runSub matchBold replBold t6
  let t8 := runSub matchEm replEm t7
  let t9 := runSub matchCode replCode t8
  sigmaSub t9

/-! ### parse_markdown_to_html -/

def ulO : List Char := "<ul>".data
def ulC : List Char := "</ul>".data
def olO : List Char := "<ol>".data
def olC : List Char := "</ol>".data

def h2Wrap (t : List Char) : List Char := "<h2>".data ++ t ++ "</h2>".data
def h3Wrap (t : List Char) : List Char := "<h3>".data ++ t ++ "</h3>".data
def liWrap (t : List Char) : List Char := "<li>".data ++ t ++ "</li>".data
def bqWrap (t : List Char) : List Char := "<blockquote>".data ++ t ++ "</blockquote>".data
def pWrap (t : List Char) : List Char := "<p>".data ++ t ++ "</p>".data

/-- The numbered-item pattern digits, dot, whitespace, rest, anchored at both
ends.  The parser applies it to stripped lines only (no leading or trailing
whitespace, no newline), on which this definition agrees with the Python
pattern; digits are modelled as ASCII digits. -/
def numMatch (line : List Char) : Option (List Char) :=
  let ds := line.takeWhile Char.isDigit
  if ds.length = 0 then none
  else
    match line.dropWhile Char.isDigit with
    | '.' :: r =>
      let w := r.takeWhile pySpace
      if w.length = 0 then none
      else
        let g2 := r.dropWhile pySpace
        if g2.length = 0 then none
        else if g2.contains '\n' then none
        else some g2
    | _ => none

/-- The branch order of the line loop of parse_markdown_to_html: blank, h2,
h3, numbered item, unordered item, blockquote, paragraph.  Each constructor
carries the text the branch extracts from the line. -/
inductive LineKind where
  | blank : LineKind
  | h2 (t : List Char) : LineKind
  | h3 (t : List Char) : LineKind
  | num (t : List Char) : LineKind
  | ul (t : List Char) : LineKind
  | bq (t : List Char) : LineKind
  | par (t : List Char) : LineKind
deriving DecidableEq

def classifyT (t : List Char) : LineKind :=
  if t.length = 0 then .blank
  else if isPrefixL "## ".data t then .h2 (stripL (t.drop 3))
  else if isPrefixL "### ".data t then .h3 (stripL (t.drop 4))
  else
    match numMatch t with
    | some g2 => .num g2
    | none =>
      if isPrefixL "- ".data t then .ul (t.drop 2)
      else if isPrefixL ">".data t then .bq (stripL (t.drop 1))
      else .par t

/-- Close tags emitted when a branch closes any open list: the unordered list
first, then the ordered list, matching the statement order of the source. -/
def closers (st : Bool × Bool) : List (List Char) :=
  (if st.1 then [ulC] else []) ++ (if st.2 then [olC] else [])

/-- One iteration of the line loop: the state is (in unordered list, in
ordered list); returns the next state and the fragments appended. -/
def lineOut (st : Bool × Bool) (raw : List Char) : (Bool × Bool) × List (List Char) :=
  match classifyT (stripL raw) with
  | .blank => ((false, false), closers st)
  | .h2 t => ((false, false), closers st ++ [h2Wrap (formatInline t)])
  | .h3 t => ((false, false), closers st ++ [h3Wrap (formatInline t)])
  | .num t =>
    ((false, true),
      (if st.1 then [ulC] else []) ++ (if st.2 then [] else [olO]) ++
        [liWrap (formatInline t)])
  | .ul t =>
    ((true, false),
      (if st.2 then [olC] else []) ++ (if st.1 then [] else [ulO]) ++
        [liWrap (formatInline t)])
  | .bq t => ((false, false), closers st ++ [bqWrap (formatInline t)])
  | .par t => ((false, false), closers st ++ [pWrap (formatInline t)])

def parseLines : (Bool × Bool) → List (List Char) → List (List Char)
  | st, [] => closers st
  | st, l :: ls =>
    let so := lineOut st l
    so.2 ++ parseLines so.1 ls

/-- The html_parts list of parse_markdown_to_html, for the preprocessed and
split input. -/
def parseParts (cs : List Char) : List (List Char) :=
  parseLines (false, false) (splitNl (preprocessL cs))

/-- parse_markdown_to_html from src/report_generator.py. -/
def parse_markdown_to_html (s : String) : String :=
  String.mk (List.intercalate ['\n'] (parseParts s.data))

/-! ### render_markdown_to_html -/

/-- The fixed document text before the html_body splice point of the
f-string of render_markdown_to_html (double braces of the f-string read as
literal braces). -/
def docPre : String :=
  "<!DOCTYPE html>\n        <html lang=\"en\">\n        <head>\n            <meta charset=\"UTF-8\">\n            <meta name=\"viewport\" content=\"width=device-width, initial-scale=1.0\">\n            <title>Process Capability Analysis Report</title>\n            <script src=\"https://polyfill.io/v3/polyfill.min.js?features=es6\"></script>\n            <script id=\"MathJax-script\" async src=\"https://cdn.jsdelivr.net/npm/mathjax@3/es5/tex-mml-chtml.js\"></script>\n            <style>\n                .math-inline \x7b\n                    display: inline;\n                \x7d\n                \n                .math-display \x7b\n                    display: block;\n                    text-align: center;\n                    margin: 15px 0;\n                    overflow-x: auto;\n                \x7d\n                * \x7b\n                    margin: 0;\n                    padding: 0;\n                    box-sizing: border-box;\n                \x7d\n                \n                body \x7b\n                    font-family: 'Segoe UI', Tahoma, Geneva, Verdana, sans-serif;\n                    line-height: 1.8;\n                    color: #333;\n                    max-width: 900px;\n                    margin: 0 auto;\n                    padding: 40px 20px;\n                    background-color: #f5f5f5;\n                \x7d\n                \n                .container \x7b\n                    background-color: white;\n                    padding: 50px;\n                    border-radius: 10px;\n                    box-shadow: 0 2px 15px rgba(0,0,0,0.1);\n                \x7d\n                \n                h2 \x7b\n                    color: #2c3e50;\n                    font-size: 1.2em;\n                    margin-top: 35px;\n                    margin-bottom: 20px;\n                    padding-bottom: 10px;\n                    border-bottom: 3px solid #3498db;\n                \x7d\n                \n                h3 \x7b\n                    color: #34495e;\n                    font-size: 1em;\n                    margin-top: 25px;\n                    margin-bottom: 15px;\n                \x7d\n                \n                h2:first-child \x7b\n                    margin-top: 0;\n                \x7d\n                \n                ul \x7b\n                    margin-left: 25px;\n                    margin-bottom: 15px;\n                \x7d\n                \n                li \x7b\n                    margin-bottom: 10px;\n                    padding-left: 5px;\n                \x7d\n                \n                ul ul \x7b\n                    margin-top: 10px;\n                    margin-bottom: 10px;\n                \x7d\n                \n                strong \x7b\n                    color: #2c3e50;\n                \x7d\n                \n                p \x7b\n                    margin-bottom: 15px;\n                    text-align: justify;\n                \x7d\n                \n                blockquote \x7b\n                    background-color: #ecf0f1;\n                    border-left: 4px solid #3498db;\n                    padding: 15px 20px;\n                    margin: 20px 0;\n                    font-style: italic;\n                    color: #555;\n                \x7d\n                \n                ol \x7b\n                    margin-left: 25px;\n                    margin-bottom: 15px;\n                \x7d\n                \n                ol li \x7b\n                    margin-bottom: 15px;\n                \x7d\n                \n                code \x7b\n                    background-color: #f8f8f8;\n                    padding: 2px 6px;\n                    border-radius: 3px;\n                    font-family: 'Consolas', monospace;\n                    font-size: 0.9em;\n                \x7d\n                \n                .embedded-image \x7b\n                    max-width: 100%;\n                    height: auto;\n                    display: block;\n                    margin: 20px auto;\n                    border-radius: 8px;\n                    box-shadow: 0 2px 10px rgba(0,0,0,0.15);\n                \x7d\n                \n                .header \x7b\n                    text-align: center;\n                    margin-bottom: 40px;\n                    padding-bottom: 20px;\n                    border-bottom: 2px solid #eee;\n                \x7d\n                \n                .header h1 \x7b\n                    color: #2c3e50;\n                    font-size: 2.2em;\n                    margin-bottom: 10px;\n                \x7d\n                \n                .header .subtitle \x7b\n                    color: #7f8c8d;\n                    font-size: 0.6em;\n                \x7d\n                \n                .footer \x7b\n                    margin-top: 40px;\n                    padding-top: 20px;\n                    border-top: 2px solid #eee;\n                    text-align: center;\n                    color: #7f8c8d;\n                    font-size: 0.9em;\n                \x7d\n                \n                @media print \x7b\n                    body \x7b\n                        background-color: white;\n                        padding: 0;\n                    \x7d\n                    .container \x7b\n                        box-shadow: none;\n                        padding: 20px;\n                    \x7d\n                \x7d\n            </style>\n        </head>\n        <body>\n            <div class=\"container\">\n                <div class=\"header\">\n                    <h1>Process Capability Analysis</h1>\n                    <p class=\"subtitle\">Technical Report</p>\n                </div>\n                \n                "

/-- The fixed document text after the html_body splice point. -/
def docPost : String :=
  "\n                \n                <div class=\"footer\">\n                    <p>Generated Report | Confidential</p>\n                </div>\n            </div>\n        </body>\n        </html>\n        "

/-- render_markdown_to_html from src/report_generator.py, on its normal path:
parse the markdown body and splice it into the fixed document template. -/
def render_markdown_to_html (s : String) : String :=
  docPre ++ parse_markdown_to_html s ++ docPost

/-- Python exceptions that appear in the control flow of the renderer call
boundary. -/
inductive PyExc where
  | fileNotFoundError : PyExc
  | typeError : PyExc
  | valueError : PyExc
  | nameError : PyExc
  | unboundLocalError : PyExc
deriving DecidableEq

/-- Control-flow model of the try/except/return structure of
render_markdown_to_html.  The body assembly (parse plus template splice) is
abstracted as `asm`, so the behaviour of the call boundary can be stated for
an assembly that raises as well as for the real, total one.  Mirrors the
source exactly: on success the document is returned from inside the try
block; when the assembly raises FileNotFoundError the handler itself raises
NameError (it prints the undefined name input_file); when it raises any other
exception the handler prints and falls through to the final
`return html_document`, which raises UnboundLocalError because html_document
was never assigned on that path. -/
def renderBoundary (asm : String -> Except PyExc String) (content : String) :
    Except PyExc String :=
  match asm content with
  | .ok body => .ok (docPre ++ body ++ docPost)
  | .error .fileNotFoundError => .error .nameError
  | .error _ => .error .unboundLocalError

/-- The real assembly of the source: total, never raises. -/
def realAsm (content : String) : Except PyExc String :=
  .ok (parse_markdown_to_html content)

/-! ### aggregator (src/aggregrator.py) -/

/-- The helper _strip_not_assessed from src/aggregrator.py: empty text stays
empty; text containing the marker is discarded entirely; other text passes
through unchanged. -/
def strip_not_assessed (text : String) : String :=
  if text = "" then ""
  else if containsL "Not assessed in this run".data text.data then ""
  else text

/-- Status values of a polled agent run. -/
inductive RunStatus where
  | queued : RunStatus
  | running : RunStatus
  | completed : RunStatus
  | succeeded : RunStatus
  | failed : RunStatus
  | cancelled : RunStatus
deriving DecidableEq

def statusStr : RunStatus → String
  | .queued => "queued"
  | .running => "running"
  | .completed => "completed"
  | .succeeded => "succeeded"
  | .failed => "failed"
  | .cancelled => "cancelled"

/-- Errors the aggregator tool can raise: RuntimeError and TimeoutError, each
carrying its message. -/
inductive AggErr where
  | runtimeError (msg : String) : AggErr
  | timeoutError (msg : String) : AggErr
deriving DecidableEq

def endedMsg (st : RunStatus) : String :=
  "Aggregator run ended with status: " ++ statusStr st

def timeoutMsg (st : RunStatus) : String :=
  "Aggregator run did not complete within 30 seconds. Last status: " ++ statusStr st

/-- The polling loop of the aggregator: poll number w reads `status w`; a
success status breaks the loop, failed or cancelled raises RuntimeError with
the terminal status, and when a poll is nonterminal the loop sleeps, bumps
the waited counter and raises TimeoutError once waited exceeds 30 seconds.
With a one-second interval the waited counter equals the poll index, so the
remaining budget (30 - w) drives the recursion: the timeout fires exactly at
the nonterminal poll number 30, as in the source. -/
def pollLoopAux (status : Nat → RunStatus) : Nat → Nat → Except AggErr Unit
  | 0, w =>
    let st := status w
    if st = .completed ∨ st = .succeeded then .ok ()
    else if st = .failed ∨ st = .cancelled then .error (.runtimeError (endedMsg st))
    else .error (.timeoutError (timeoutMsg st))
  | f + 1, w =>
    let st := status w
    if st = .completed ∨ st = .succeeded then .ok ()
    else if st = .failed ∨ st = .cancelled then .error (.runtimeError (endedMsg st))
    else pollLoopAux status f (w + 1)

def pollLoop (status : Nat → RunStatus) : Except AggErr Unit :=
  pollLoopAux status 30 0

/-- Message roles in the thread. -/
inductive Role where
  | user : Role
  | agent : Role
deriving DecidableEq

/-- A content item of a thread message: a text item with a truthy text value,
a text item whose text field is None, or a non-text item. -/
inductive MsgItem where
  | text (v : String) : MsgItem
  | textNone : MsgItem
  | otherItem : MsgItem
deriving DecidableEq

structure AgentMsg where
  role : Role
  content : List MsgItem
deriving DecidableEq

/-- The fallback scan of the aggregator: messages that are not agent-authored
or have empty content are skipped; text items with truthy text contribute
their value. -/
def collectTexts (msgs : List AgentMsg) : List String :=
  msgs.flatMap (fun m =>
    if m.role = Role.agent ∧ m.content ≠ [] then
      m.content.filterMap (fun i =>
        match i with
        | .text v => some v
        | _ => none)
    else [])

/-- Environment configuration read by the aggregator; a value is falsy when
missing or empty, matching `if not value` on os.environ.get. -/
structure AggEnv where
  project_endpoint : Option String
  model_deployment : Option String
  agent_id : Option String
deriving DecidableEq

def falsyEnv : Option String → Bool
  | none => true
  | some s => s = ""

/-- The remote side of one aggregation request: the sequence of statuses the
polls observe, the result of the get-last-message-text shortcut (outer none
means no message, inner none a message whose text field is None), and the
full message thread for the fallback scan. -/
structure RemoteRun where
  status : Nat → RunStatus
  lastText : Option (Option String)
  messages : List AgentMsg

/-- The aggregator tool from src/aggregrator.py, with the remote service
abstracted as a RemoteRun.  Configuration checks run before anything touches
the remote side (the result does not depend on `run` on those paths); the
no-content early return follows them; then the run is polled and the agent
text is extracted, with the fixed placeholder when no text came back. -/
def aggregator (env : AggEnv) (o_processbehavior o_capmetrics : String)
    (run : RemoteRun) : Except AggErr String :=
  if falsyEnv env.project_endpoint then
    .error (.runtimeError "PROJECT_ENDPOINT must be set in config.env or environment.")
  else if falsyEnv env.agent_id then
    .error (.runtimeError "PROCESS_CAPABILITY_AGGREGATOR_AGENT must be set.")
  else if o_processbehavior = "" ∧ o_capmetrics = "" then
    .ok "No process behavior or capability information was provided to the aggregator."
  else
    match pollLoop run.status with
    | .error e => .error e
    | .ok _ =>
      match run.lastText with
      | some (some v) => .ok v
      | _ =>
        let collected := collectTexts run.messages
        if collected = [] then .ok "The aggregator agent did not return any text response."
        else .ok (String.intercalate "\n\n" collected)

/-! ### reportwriter (src/report_writer.py) -/

/-- Python str.replace: replace every occurrence of `pat` (nonempty here),
scanning left to right without overlap. -/
def replaceAllL (pat repl : List Char) : Nat → List Char → List Char
  | 0, cs => cs
  | _ + 1, [] => []
  | f + 1, c :: cs =>
    if isPrefixL pat (c :: cs) then repl ++ replaceAllL pat repl f ((c :: cs).drop pat.length)
    else c :: replaceAllL pat repl f cs

def pyReplace (s pat repl : String) : String :=
  String.mk (replaceAllL pat.data repl.data (s.data.length + 1) s.data)

/-- The record of one blob upload: where the content went and what the call
returned.  The url field models BlobClient.url of the storage collaborator as
account endpoint, container and blob name. -/
structure UploadRecord where
  container : String
  blob : String
  content : String
  contentType : String
  url : String
deriving DecidableEq

/-- reportwriter from src/report_writer.py, with the fresh UUID a parameter
and the storage service abstracted to the record of the performed upload. -/
def reportwriter (account_name _account_key container_name blob_name html_content : String)
    (uuid : String) : UploadRecord :=
  let container := container_name ++ "-output"
  let base := if isSuffixL ".html".data blob_name.data
              then pyReplace blob_name ".html" "" else blob_name
  let blob := base ++ "-" ++ uuid ++ ".html"
  { container := container
    blob := blob
    content := html_content
    contentType := "text/html"
    url := "https://" ++ account_name ++ ".blob.core.windows.net/" ++ container ++ "/" ++ blob }

/-! ## Theorems -/

theorem isPrefixL_refl : ∀ (l : List Char), isPrefixL l l = true
  | [] => rfl
  | c :: cs => by simp [isPrefixL, isPrefixL_refl cs]

/-- Helper for C9: scanning a dot-free base followed by the pattern replaces
only the final occurrence. -/
theorem replaceAllL_nil (pat repl : List Char) : ∀ f, replaceAllL pat repl f [] = [] := by
  intro f
  cases f <;> rfl

theorem replaceAll_clean_tail (p0 : Char) (ps : List Char) (hp : p0 = '.') :
    ∀ (f : Nat) (base : List Char), base.length < f → (∀ c ∈ base, c ≠ '.') →
      replaceAllL (p0 :: ps) [] f (base ++ (p0 :: ps)) = base := by
  subst hp
  intro f base
  induction base generalizing f with
  | nil =>
    intro hf _
    match f, hf with
    | g + 1, _ =>
      have h1 : isPrefixL ('.' :: ps) ('.' :: ps) = true := isPrefixL_refl _
      simp [replaceAllL, h1, replaceAllL_nil]
  | cons c bs ih =>
    intro hf hc
    match f, hf with
    | g + 1, hf =>
      have hcd : c ≠ '.' := hc c (by simp)
      have h1 : isPrefixL ('.' :: ps) (c :: (bs ++ '.' :: ps)) = false := by
        simp only [isPrefixL, Bool.and_eq_false_iff, decide_eq_false_iff_not]
        left
        intro h
        exact hcd h.symm
      have hlen : bs.length < g := by
        simp only [List.length_cons] at hf
        omega
      have ih2 := ih g hlen (fun x hx => hc x (List.mem_cons_of_mem _ hx))
      simp only [List.cons_append, List.append_eq, replaceAllL, h1, Bool.false_eq_true,
        if_false]
      rw [ih2]

/-- C1 uses the renderer boundary model at an assembly that raises. -/
theorem c1_boundary_raises :
    renderBoundary (fun _ => Except.error PyExc.typeError) "## x" =
      Except.error PyExc.unboundLocalError ∧
    renderBoundary (fun _ => Except.error PyExc.fileNotFoundError) "## x" =
      Except.error PyExc.nameError := ⟨rfl, rfl⟩

/-- Prefix test succeeds on the pattern itself followed by anything. -/
theorem isPrefixL_append : ∀ (p r : List Char), isPrefixL p (p ++ r) = true := by
  intro p r
  induction p with
  | nil => rfl
  | cons c cs ih => simp [isPrefixL, ih]

/-- C9 (amended): the upload always goes to the caller container plus
"-output" (never the caller container itself), under the blob name built from
blob_name with every occurrence of ".html" removed when it ends in ".html"
(unchanged otherwise), a dash, the fresh UUID and ".html", with content type
text/html, and the returned URL is that of the uploaded blob.  When the final
".html" is the only dot in the name this agrees with stripping the trailing
extension. -/
theorem c9_upload_destination (account key container blob content uuid : String) :
    (reportwriter account key container blob content uuid).container = container ++ "-output" ∧
    (reportwriter account key container blob content uuid).container ≠ container ∧
    (reportwriter account key container blob content uuid).blob =
      (if isSuffixL ".html".data blob.data then pyReplace blob ".html" "" else blob) ++
        "-" ++ uuid ++ ".html" ∧
    (reportwriter account key container blob content uuid).contentType = "text/html" ∧
    (reportwriter account key container blob content uuid).content = content ∧
    (reportwriter account key container blob content uuid).url =
      "https://" ++ account ++ ".blob.core.windows.net/" ++
        (reportwriter account key container blob content uuid).container ++ "/" ++
        (reportwriter account key container blob content uuid).blob ∧
    (∀ base : String, blob = base ++ ".html" → (∀ c ∈ base.data, c ≠ '.') →
      (reportwriter account key container blob content uuid).blob =
        base ++ "-" ++ uuid ++ ".html") := by
  refine ⟨rfl, ?_, rfl, rfl, rfl, rfl, ?_⟩
  · intro h
    simp only [reportwriter] at h
    have h2 := congrArg String.length h
    rw [String.length_append] at h2
    have h3 : ("-output" : String).length = 7 := by decide
    omega
  · intro base hb hdot
    subst hb
    have hpat : (".html" : String).data = '.' :: ['h', 't', 'm', 'l'] := rfl
    have hnil : ("" : String).data = [] := rfl
    have hsuf : isSuffixL ".html".data (base ++ ".html").data = true := by
      rw [String.data_append]
      unfold isSuffixL
      rw [List.reverse_append]
      exact isPrefixL_append _ _
    have hd : (base ++ ".html").data = base.data ++ '.' :: ['h', 't', 'm', 'l'] := by
      rw [String.data_append, hpat]
    have hlen : base.data.length < (base.data ++ '.' :: ['h', 't', 'm', 'l']).length + 1 := by
      simp [List.length_append]
      omega
    have hstep : pyReplace (base ++ ".html") ".html" "" = base := by
      unfold pyReplace
      rw [hpat, hnil, hd, replaceAll_clean_tail '.' ['h', 't', 'm', 'l'] rfl _ base.data hlen hdot]
    simp only [reportwriter, hsuf, if_true]
    rw [hstep]

/-- C9 counterexample: for the input name "report.html.html" the code removes
every occurrence of ".html" (the name ends with ".html", so str.replace runs
over the whole name), while the claimed form would keep the first ".html". -/
theorem c9_counterexample :
    (reportwriter "acct" "key" "cont" "report.html.html" "body" "u123").blob
        = "report-u123.html" ∧
    ("report-u123.html" : String) ≠ "report.html" ++ "-" ++ "u123" ++ ".html" :=
  ⟨by decide, by decide⟩

theorem c9_witness :
    ("rep.html" : String) = "rep" ++ ".html" ∧
    (reportwriter "a" "k" "c" "rep.html" "body" "u1").blob = "rep" ++ "-" ++ "u1" ++ ".html" :=
  ⟨by decide,
    (c9_upload_destination "a" "k" "c" "rep.html" "body" "u1").2.2.2.2.2.2 "rep"
      (by decide) (by decide)⟩

/-- C10: text containing the marker is discarded entirely; nonempty text
without the marker passes through unchanged. -/
theorem c10_strip_marker (t : String) :
    (containsL "Not assessed in this run".data t.data = true → strip_not_assessed t = "") ∧
    (containsL "Not assessed in this run".data t.data = false → t ≠ "" →
      strip_not_assessed t = t) := by
  constructor
  · intro h
    by_cases ht : t = ""
    · simp [strip_not_assessed, ht]
    · simp [strip_not_assessed, ht, h]
  · intro h ht
    simp [strip_not_assessed, ht, h]

theorem c10_witness :
    (containsL "Not assessed in this run".data
        "x Not assessed in this run y".data = true ∧
      strip_not_assessed "x Not assessed in this run y" = "") ∧
    (containsL "Not assessed in this run".data "keep me".data = false ∧
      ("keep me" : String) ≠ "" ∧ strip_not_assessed "keep me" = "keep me") :=
  ⟨⟨by decide, (c10_strip_marker "x Not assessed in this run y").1 (by decide)⟩,
   ⟨by decide, by decide, (c10_strip_marker "keep me").2 (by decide) (by decide)⟩⟩

/-- C2 counterexample: on the example input the rendered body has no
paragraph at all and no header reading just Summary; nothing breaks the text
after "Summary" out of the header line. -/
theorem c2_counterexample :
    containsL "<p>".data
        (parse_markdown_to_html "## Summary The process is stable. - **Action:** monitor").data
      = false ∧
    containsL "<h2>Summary</h2>".data
        (parse_markdown_to_html "## Summary The process is stable. - **Action:** monitor").data
      = false :=
  ⟨by decide, by decide⟩

/-- C2 amended: normalization inserts a break before the list marker only, so
the whole text up to the list becomes the h2 heading and the body consists of
exactly the four fragments below (no paragraph fragment). -/
theorem c2_actual_fragments :
    parseParts "## Summary The process is stable. - **Action:** monitor".data =
      ["<h2>Summary The process is stable.</h2>".data, "<ul>".data,
       "<li><strong>Action:</strong> monitor</li>".data, "</ul>".data] := by
  decide

/-- C6: the renderer raises nothing on its normal path for any input (the
boundary model returns ok with the rendered document), and the empty string
renders to the fixed document template with nothing between its header part
and its footer part. -/
theorem c6_renderer_total_empty_body :
    (∀ s : String, renderBoundary realAsm s = Except.ok (render_markdown_to_html s)) ∧
    render_markdown_to_html "" = docPre ++ docPost ∧
    parse_markdown_to_html "" = "" := by
  refine ⟨fun s => rfl, ?_, by decide⟩
  show docPre ++ parse_markdown_to_html "" ++ docPost = docPre ++ docPost
  have h : parse_markdown_to_html "" = "" := by decide
  rw [h]
  simp

/-- A status on which the polling loop keeps waiting. -/
def nonTerminal (st : RunStatus) : Prop := st = RunStatus.queued ∨ st = RunStatus.running

theorem pollAux_first_fail (status : Nat → RunStatus) :
    ∀ (n fuel w : Nat), n ≤ fuel →
      (∀ k, k < n → nonTerminal (status (w + k))) →
      (status (w + n) = RunStatus.failed ∨ status (w + n) = RunStatus.cancelled) →
      pollLoopAux status fuel w = .error (.runtimeError (endedMsg (status (w + n)))) := by
  intro n
  induction n with
  | zero =>
    intro fuel w _ _ hfail
    have h1 : ¬(status w = RunStatus.completed ∨ status w = RunStatus.succeeded) := by
      rcases hfail with h | h <;> rw [Nat.add_zero] at h <;> simp [h]
    have h2 : status w = RunStatus.failed ∨ status w = RunStatus.cancelled := by
      rwa [Nat.add_zero] at hfail
    rw [Nat.add_zero]
    cases fuel <;> simp [pollLoopAux, h1, h2]
  | succ n ih =>
    intro fuel w hle hrun hfail
    match fuel, hle with
    | f + 1, hle =>
      have h0 : nonTerminal (status w) := by
        have := hrun 0 (Nat.succ_pos n)
        rwa [Nat.add_zero] at this
      have h1 : ¬(status w = RunStatus.completed ∨ status w = RunStatus.succeeded) := by
        rcases h0 with h | h <;> simp [h]
      have h2 : ¬(status w = RunStatus.failed ∨ status w = RunStatus.cancelled) := by
        rcases h0 with h | h <;> simp [h]
      have step : pollLoopAux status (f + 1) w = pollLoopAux status f (w + 1) := by
        simp [pollLoopAux, h1, h2]
      rw [step]
      have hrun2 : ∀ k, k < n → nonTerminal (status (w + 1 + k)) := by
        intro k hk
        have := hrun (k + 1) (by omega)
        rwa [show w + (k + 1) = w + 1 + k by omega] at this
      have hfail2 : status (w + 1 + n) = RunStatus.failed ∨
          status (w + 1 + n) = RunStatus.cancelled := by
        rwa [show w + (n + 1) = w + 1 + n by omega] at hfail
      have := ih f (w + 1) (by omega) hrun2 hfail2
      rwa [show w + 1 + n = w + (n + 1) by omega] at this

theorem pollAux_timeout (status : Nat → RunStatus) :
    ∀ (fuel w : Nat), (∀ k, k ≤ fuel → nonTerminal (status (w + k))) →
      pollLoopAux status fuel w = .error (.timeoutError (timeoutMsg (status (w + fuel)))) := by
  intro fuel
  induction fuel with
  | zero =>
    intro w hrun
    have h0 : nonTerminal (status w) := by
      have := hrun 0 (Nat.le_refl 0)
      rwa [Nat.add_zero] at this
    have h1 : ¬(status w = RunStatus.completed ∨ status w = RunStatus.succeeded) := by
      rcases h0 with h | h <;> simp [h]
    have h2 : ¬(status w = RunStatus.failed ∨ status w = RunStatus.cancelled) := by
      rcases h0 with h | h <;> simp [h]
    rw [Nat.add_zero]
    simp [pollLoopAux, h1, h2]
  | succ f ih =>
    intro w hrun
    have h0 : nonTerminal (status w) := by
      have := hrun 0 (Nat.zero_le _)
      rwa [Nat.add_zero] at this
    have h1 : ¬(status w = RunStatus.completed ∨ status w = RunStatus.succeeded) := by
      rcases h0 with h | h <;> simp [h]
    have h2 : ¬(status w = RunStatus.failed ∨ status w = RunStatus.cancelled) := by
      rcases h0 with h | h <;> simp [h]
    have step : pollLoopAux status (f + 1) w = pollLoopAux status f (w + 1) := by
      simp [pollLoopAux, h1, h2]
    rw [step]
    have hrun2 : ∀ k, k ≤ f → nonTerminal (status (w + 1 + k)) := by
      intro k hk
      have := hrun (k + 1) (by omega)
      rwa [show w + (k + 1) = w + 1 + k by omega] at this
    have := ih (w + 1) hrun2
    rwa [show w + 1 + f = w + (f + 1) by omega] at this

/-- C8: the four failure behaviours at the aggregator boundary.  Missing
required configuration raises a RuntimeError with the fixed message for any
remote behaviour whatsoever (the check runs before any remote call, so the
result does not depend on the run); a poll observing failed or cancelled
raises a RuntimeError carrying that terminal status; a run that stays
nonterminal through the whole wait budget raises a TimeoutError; and a run
that completes without any agent text returns the fixed placeholder string
instead of failing. -/
theorem c8_aggregator_failures :
    (∀ (env : AggEnv) (pb cm : String) (run : RemoteRun),
      falsyEnv env.project_endpoint = true →
        aggregator env pb cm run =
          .error (.runtimeError "PROJECT_ENDPOINT must be set in config.env or environment.")) ∧
    (∀ (env : AggEnv) (pb cm : String) (run : RemoteRun),
      falsyEnv env.project_endpoint = false → falsyEnv env.agent_id = true →
        aggregator env pb cm run =
          .error (.runtimeError "PROCESS_CAPABILITY_AGGREGATOR_AGENT must be set.")) ∧
    (∀ (env : AggEnv) (pb cm : String) (run : RemoteRun) (n : Nat),
      falsyEnv env.project_endpoint = false → falsyEnv env.agent_id = false →
      ¬(pb = "" ∧ cm = "") → n ≤ 30 →
      (∀ k, k < n → nonTerminal (run.status k)) →
      (run.status n = RunStatus.failed ∨ run.status n = RunStatus.cancelled) →
        aggregator env pb cm run = .error (.runtimeError (endedMsg (run.status n)))) ∧
    (∀ (env : AggEnv) (pb cm : String) (run : RemoteRun),
      falsyEnv env.project_endpoint = false → falsyEnv env.agent_id = false →
      ¬(pb = "" ∧ cm = "") →
      (∀ k, k ≤ 30 → nonTerminal (run.status k)) →
        aggregator env pb cm run = .error (.timeoutError (timeoutMsg (run.status 30)))) ∧
    (∀ (env : AggEnv) (pb cm : String) (run : RemoteRun),
      falsyEnv env.project_endpoint = false → falsyEnv env.agent_id = false →
      ¬(pb = "" ∧ cm = "") →
      pollLoop run.status = .ok () →
      (run.lastText = none ∨ run.lastText = some none) →
      collectTexts run.messages = [] →
        aggregator env pb cm run =
          .ok "The aggregator agent did not return any text response.") := by
  refine ⟨?_, ?_, ?_, ?_, ?_⟩
  · intro env pb cm run h
    simp [aggregator, h]
  · intro env pb cm run h1 h2
    simp [aggregator, h1, h2]
  · intro env pb cm run n h1 h2 h3 hn hrun hfail
    have hp : pollLoop run.status = .error (.runtimeError (endedMsg (run.status n))) := by
      unfold pollLoop
      have := pollAux_first_fail run.status n 30 0 hn
        (by intro k hk; simpa using hrun k hk) (by simpa using hfail)
      simpa using this
    simp [aggregator, h1, h2, h3, hp]
  · intro env pb cm run h1 h2 h3 hrun
    have hp : pollLoop run.status = .error (.timeoutError (timeoutMsg (run.status 30))) := by
      unfold pollLoop
      have := pollAux_timeout run.status 30 0 (by intro k hk; simpa using hrun k hk)
      simpa using this
    simp [aggregator, h1, h2, h3, hp]
  · intro env pb cm run h1 h2 h3 hp hlast hcoll
    rcases hlast with h | h <;> simp [aggregator, h1, h2, h3, hp, h, hcoll]

theorem c8_witness :
    (aggregator ⟨none, none, some "agent"⟩ "pb" "cm"
        ⟨fun _ => RunStatus.completed, none, []⟩ =
      .error (.runtimeError "PROJECT_ENDPOINT must be set in config.env or environment.")) ∧
    (aggregator ⟨some "ep", none, none⟩ "pb" "cm"
        ⟨fun _ => RunStatus.completed, none, []⟩ =
      .error (.runtimeError "PROCESS_CAPABILITY_AGGREGATOR_AGENT must be set.")) ∧
    (aggregator ⟨some "ep", none, some "agent"⟩ "pb" ""
        ⟨fun k => if k < 2 then RunStatus.running else RunStatus.cancelled, none, []⟩ =
      .error (.runtimeError "Aggregator run ended with status: cancelled")) ∧
    (aggregator ⟨some "ep", none, some "agent"⟩ "pb" ""
        ⟨fun _ => RunStatus.queued, none, []⟩ =
      .error (.timeoutError
        "Aggregator run did not complete within 30 seconds. Last status: queued")) ∧
    (aggregator ⟨some "ep", none, some "agent"⟩ "pb" ""
        ⟨fun _ => RunStatus.completed, some none, [⟨Role.agent, [MsgItem.otherItem]⟩]⟩ =
      .ok "The aggregator agent did not return any text response.") := by
  refine ⟨?_, ?_, ?_, ?_, ?_⟩
  · exact c8_aggregator_failures.1 _ _ _ _ (by decide)
  · exact c8_aggregator_failures.2.1 _ _ _ _ (by decide) (by decide)
  · have := c8_aggregator_failures.2.2.1 ⟨some "ep", none, some "agent"⟩ "pb" ""
      ⟨fun k => if k < 2 then RunStatus.running else RunStatus.cancelled, none, []⟩ 2
      (by decide) (by decide) (by simp) (by omega)
      (by intro k hk; interval_cases k <;> simp [nonTerminal]) (by simp)
    simpa using this
  · have := c8_aggregator_failures.2.2.2.1 ⟨some "ep", none, some "agent"⟩ "pb" ""
      ⟨fun _ => RunStatus.queued, none, []⟩
      (by decide) (by decide) (by simp) (by intro k _; left; rfl)
    simpa using this
  · exact c8_aggregator_failures.2.2.2.2 _ _ _ _
      (by decide) (by decide) (by simp) rfl (Or.inr rfl) rfl

/-! ### C4: list tag discipline -/

/-- The four structural list tags the parser emits. -/
def isListTag (x : List Char) : Bool :=
  x = ulO || x = ulC || x = olO || x = olC

def listTags (ps : List (List Char)) : List (List Char) := ps.filter isListTag

/-- A balanced list group: an opening tag immediately followed by its close. -/
def blockOf (b : Bool) : List (List Char) := if b then [ulO, ulC] else [olO, olC]

theorem isListTag_false_of_len (x : List Char) (h : 6 ≤ x.length) : isListTag x = false := by
  have h1 : ulO.length = 4 := rfl
  have h2 : ulC.length = 5 := rfl
  have h3 : olO.length = 4 := rfl
  have h4 : olC.length = 5 := rfl
  simp only [isListTag, Bool.or_eq_false_iff, decide_eq_false_iff_not]
  refine ⟨⟨⟨?_, ?_⟩, ?_⟩, ?_⟩ <;> intro he <;> rw [he] at h <;> omega

theorem wrap_not_tag (pre post t : List Char) (h : 6 ≤ pre.length + post.length) :
    isListTag (pre ++ t ++ post) = false := by
  apply isListTag_false_of_len
  simp only [List.length_append]
  omega

theorem listTags_closers (st : Bool × Bool) : listTags (closers st) = closers st := by
  obtain ⟨u, o⟩ := st
  cases u <;> cases o <;> simp [closers, listTags, isListTag, ulC, olC]

theorem tag_ulO : isListTag ulO = true := by decide

theorem tag_ulC : isListTag ulC = true := by decide

theorem tag_olO : isListTag olO = true := by decide

theorem tag_olC : isListTag olC = true := by decide

/-- Invariant induction for the tag stream of the line loop: starting from a
state where at most one list is open, the structural tags emitted are the
pending closes of the current state followed by a sequence of balanced
groups. -/
theorem parseLines_tags :
    ∀ (ls : List (List Char)) (st : Bool × Bool), ¬(st.1 = true ∧ st.2 = true) →
      ∃ bs : List Bool, listTags (parseLines st ls) = closers st ++ bs.flatMap blockOf := by
  intro ls
  induction ls with
  | nil =>
    intro st _
    exact ⟨[], by simp [parseLines, listTags_closers]⟩
  | cons l ls ih =>
    intro st hst
    obtain ⟨u, o⟩ := st
    show ∃ bs, listTags ((lineOut (u, o) l).2 ++ parseLines (lineOut (u, o) l).1 ls) = _
    unfold lineOut
    cases hcl : classifyT (stripL l) with
    | blank =>
      obtain ⟨bs, hbs⟩ := ih (false, false) (by simp)
      simp only [listTags] at hbs
      refine ⟨bs, ?_⟩
      cases u <;> cases o <;>
        simp [listTags, List.filter_append, List.filter_cons, closers, tag_ulC, tag_olC,
          hbs]
    | h2 t =>
      obtain ⟨bs, hbs⟩ := ih (false, false) (by simp)
      simp only [listTags] at hbs
      refine ⟨bs, ?_⟩
      have hw : isListTag (h2Wrap (formatInline t)) = false :=
        wrap_not_tag "<h2>".data "</h2>".data _ (by decide)
      cases u <;> cases o <;>
        simp [listTags, List.filter_append, List.filter_cons, closers, tag_ulC, tag_olC,
          hw, hbs]
    | h3 t =>
      obtain ⟨bs, hbs⟩ := ih (false, false) (by simp)
      simp only [listTags] at hbs
      refine ⟨bs, ?_⟩
      have hw : isListTag (h3Wrap (formatInline t)) = false :=
        wrap_not_tag "<h3>".data "</h3>".data _ (by decide)
      cases u <;> cases o <;>
        simp [listTags, List.filter_append, List.filter_cons, closers, tag_ulC, tag_olC,
          hw, hbs]
    | bq t =>
      obtain ⟨bs, hbs⟩ := ih (false, false) (by simp)
      simp only [listTags] at hbs
      refine ⟨bs, ?_⟩
      have hw : isListTag (bqWrap (formatInline t)) = false :=
        wrap_not_tag "<blockquote>".data "</blockquote>".data _ (by decide)
      cases u <;> cases o <;>
        simp [listTags, List.filter_append, List.filter_cons, closers, tag_ulC, tag_olC,
          hw, hbs]
    | par t =>
      obtain ⟨bs, hbs⟩ := ih (false, false) (by simp)
      simp only [listTags] at hbs
      refine ⟨bs, ?_⟩
      have hw : isListTag (pWrap (formatInline t)) = false :=
        wrap_not_tag "<p>".data "</p>".data _ (by decide)
      cases u <;> cases o <;>
        simp [listTags, List.filter_append, List.filter_cons, closers, tag_ulC, tag_olC,
          hw, hbs]
    | num t =>
      obtain ⟨bs, hbs⟩ := ih (false, true) (by simp)
      simp only [listTags] at hbs
      have hw : isListTag (liWrap (formatInline t)) = false :=
        wrap_not_tag "<li>".data "</li>".data _ (by decide)
      cases u with
      | false =>
        cases o with
        | false =>
          refine ⟨false :: bs, ?_⟩
          simp [listTags, List.filter_append, List.filter_cons, closers, tag_olO, tag_olC,
            hw, hbs, blockOf]
        | true =>
          refine ⟨bs, ?_⟩
          simp [listTags, List.filter_append, List.filter_cons, closers, tag_olC, hw, hbs]
      | true =>
        cases o with
        | false =>
          refine ⟨false :: bs, ?_⟩
          simp [listTags, List.filter_append, List.filter_cons, closers, tag_ulC, tag_olO,
            tag_olC, hw, hbs, blockOf]
        | true => exact absurd ⟨rfl, rfl⟩ hst
    | ul t =>
      obtain ⟨bs, hbs⟩ := ih (true, false) (by simp)
      simp only [listTags] at hbs
      have hw : isListTag (liWrap (formatInline t)) = false :=
        wrap_not_tag "<li>".data "</li>".data _ (by decide)
      cases u with
      | false =>
        cases o with
        | false =>
          refine ⟨true :: bs, ?_⟩
          simp [listTags, List.filter_append, List.filter_cons, closers, tag_ulO, tag_ulC,
            hw, hbs, blockOf]
        | true =>
          refine ⟨true :: bs, ?_⟩
          simp [listTags, List.filter_append, List.filter_cons, closers, tag_ulO, tag_ulC,
            tag_olC, hw, hbs, blockOf]
      | true =>
        cases o with
        | false =>
          refine ⟨bs, ?_⟩
          simp [listTags, List.filter_append, List.filter_cons, closers, tag_ulC, hw, hbs]
        | true => exact absurd ⟨rfl, rfl⟩ hst

/-- C4: in the emitted fragment stream every structural list tag belongs to a
balanced group (an opening ul or ol immediately matched by its single close,
never interleaved with the other list kind, closing at end of input included,
since the groups cover the entire output); the two list states are never set
simultaneously; and a list item arriving while its own list is already open
emits exactly the item and no opening tag, keeping the state. -/
theorem c4_list_tag_invariants :
    (∀ s : String, ∃ bs : List Bool, listTags (parseParts s.data) = bs.flatMap blockOf) ∧
    (∀ (st : Bool × Bool) (raw : List Char), ¬(st.1 = true ∧ st.2 = true) →
      ¬((lineOut st raw).1.1 = true ∧ (lineOut st raw).1.2 = true)) ∧
    (∀ (raw t : List Char), classifyT (stripL raw) = LineKind.ul t →
      lineOut (true, false) raw = ((true, false), [liWrap (formatInline t)])) ∧
    (∀ (raw t : List Char), classifyT (stripL raw) = LineKind.num t →
      lineOut (false, true) raw = ((false, true), [liWrap (formatInline t)])) := by
  refine ⟨?_, ?_, ?_, ?_⟩
  · intro s
    have h := parseLines_tags (splitNl (preprocessL s.data)) (false, false) (by simp)
    simpa [parseParts, closers] using h
  · intro st raw _
    unfold lineOut
    cases classifyT (stripL raw) <;> simp
  · intro raw t h
    simp [lineOut, h, closers]
  · intro raw t h
    simp [lineOut, h, closers]

theorem c4_witness :
    (¬((lineOut (true, false) "- x".data).1.1 = true ∧
        (lineOut (true, false) "- x".data).1.2 = true)) ∧
    lineOut (true, false) "- a".data = ((true, false), [liWrap (formatInline "a".data)]) ∧
    lineOut (false, true) "2. b".data = ((false, true), [liWrap (formatInline "b".data)]) :=
  ⟨c4_list_tag_invariants.2.1 (true, false) "- x".data (by decide),
   c4_list_tag_invariants.2.2.1 "- a".data "a".data (by decide),
   c4_list_tag_invariants.2.2.2 "2. b".data "b".data (by decide)⟩

/-- Induction for C7: when no line carries a block marker, the loop stays out
of the list states and emits one paragraph wrap per non-blank line. -/
theorem parseLines_par :
    ∀ ls : List (List Char),
      (∀ l ∈ ls, isPrefixL "## ".data (stripL l) = false ∧
        isPrefixL "### ".data (stripL l) = false ∧
        numMatch (stripL l) = none ∧
        isPrefixL "- ".data (stripL l) = false ∧
        isPrefixL ">".data (stripL l) = false) →
      parseLines (false, false) ls = ls.filterMap
        (fun l => if (stripL l).length = 0 then none
                  else some (pWrap (formatInline (stripL l)))) := by
  intro ls
  induction ls with
  | nil =>
    intro _
    simp [parseLines, closers]
  | cons l ls ih =>
    intro h
    obtain ⟨h1, h2, h3, h4, h5⟩ := h l (List.mem_cons_self l ls)
    have hrest := ih (fun x hx => h x (List.mem_cons_of_mem l hx))
    by_cases hz : (stripL l).length = 0
    · have hcl : classifyT (stripL l) = LineKind.blank := by simp [classifyT, hz]
      show (lineOut (false, false) l).2 ++ parseLines (lineOut (false, false) l).1 ls = _
      rw [lineOut, hcl]
      simp only [closers, if_neg (by simp : ¬false = true), List.nil_append]
      rw [hrest]
      have hze : stripL l = [] := List.length_eq_zero.mp hz
      simp [List.filterMap_cons, hze]
    · have hcl : classifyT (stripL l) = LineKind.par (stripL l) := by
        simp [classifyT, hz, h1, h2, h3, h4, h5]
      show (lineOut (false, false) l).2 ++ parseLines (lineOut (false, false) l).1 ls = _
      rw [lineOut, hcl]
      simp only [closers, if_neg (by simp : ¬false = true), List.nil_append]
      rw [hrest]
      have hze : ¬stripL l = [] := fun he => hz (by simp [he])
      simp [List.filterMap_cons, hze]

/-- C7: if after normalization no line starts with the h2, h3, unordered-item
or blockquote marker and none matches the numbered-item pattern, the parser
emits exactly one paragraph wrap per non-blank line, in input order, and
every fragment is a paragraph wrap (so no list, header or blockquote tag). -/
theorem c7_no_markers (s : String)
    (h : ∀ l ∈ splitNl (preprocessL s.data),
      isPrefixL "## ".data (stripL l) = false ∧
      isPrefixL "### ".data (stripL l) = false ∧
      numMatch (stripL l) = none ∧
      isPrefixL "- ".data (stripL l) = false ∧
      isPrefixL ">".data (stripL l) = false) :
    parseParts s.data = (splitNl (preprocessL s.data)).filterMap
        (fun l => if (stripL l).length = 0 then none
                  else some (pWrap (formatInline (stripL l)))) ∧
    ∀ x ∈ parseParts s.data, ∃ t : List Char, x = pWrap t := by
  have hmain : parseParts s.data = (splitNl (preprocessL s.data)).filterMap
      (fun l => if (stripL l).length = 0 then none
                else some (pWrap (formatInline (stripL l)))) := by
    show parseLines (false, false) (splitNl (preprocessL s.data)) = _
    exact parseLines_par _ h
  refine ⟨hmain, ?_⟩
  intro x hx
  rw [hmain] at hx
  rw [List.mem_filterMap] at hx
  obtain ⟨l, _, hl⟩ := hx
  by_cases hz : (stripL l).length = 0
  · rw [if_pos hz] at hl
    exact absurd hl (by simp)
  · rw [if_neg hz] at hl
    exact ⟨formatInline (stripL l), (Option.some_inj.mp hl).symm⟩


theorem c7_witness :
    parseParts "alpha\nbeta".data = (splitNl (preprocessL "alpha\nbeta".data)).filterMap
      (fun l => if (stripL l).length = 0 then none
                else some (pWrap (formatInline (stripL l)))) :=
  (c7_no_markers "alpha\nbeta" (by decide)).1

/-! ### Scanner toolbox for the inline-pass theorems -/

theorem scanSub_nil (m : Char → List Char → Option (List Char × Nat))
    (r : List Char → List Char) : ∀ f, scanSub m r f [] = [] := by
  intro f
  cases f <;> rfl

theorem scanSubP_nil (m : Option Char → Char → List Char → Option (List Char × Nat))
    (r : List Char → List Char) : ∀ f p, scanSubP m r f p [] = [] := by
  intro f p
  cases f <;> rfl

/-- No match starts anywhere in the list (for patterns without lookbehind). -/
def SkipOK0 (m : Char → List Char → Option (List Char × Nat)) : List Char → Prop
  | [] => True
  | c :: cs => m c cs = none ∧ SkipOK0 m cs

/-- No match starts anywhere, given the character preceding the list. -/
def SkipOKP (m : Option Char → Char → List Char → Option (List Char × Nat)) :
    Option Char → List Char → Prop
  | _, [] => True
  | p, c :: cs => m p c cs = none ∧ SkipOKP m (some c) cs

theorem scanSub_skip (m : Char → List Char → Option (List Char × Nat))
    (r : List Char → List Char) :
    ∀ (f : Nat) (cs : List Char), SkipOK0 m cs → scanSub m r f cs = cs := by
  intro f
  induction f with
  | zero => intro cs _; rfl
  | succ f ih =>
    intro cs h
    cases cs with
    | nil => rfl
    | cons c cs =>
      obtain ⟨h1, h2⟩ := h
      simp [scanSub, h1, ih cs h2]

theorem scanSubP_skip (m : Option Char → Char → List Char → Option (List Char × Nat))
    (r : List Char → List Char) :
    ∀ (f : Nat) (p : Option Char) (cs : List Char), SkipOKP m p cs →
      scanSubP m r f p cs = cs := by
  intro f
  induction f with
  | zero => intro p cs _; rfl
  | succ f ih =>
    intro p cs h
    cases cs with
    | nil => rfl
    | cons c cs =>
      obtain ⟨h1, h2⟩ := h
      simp [scanSubP, h1, ih (some c) cs h2]

theorem skipOK0_of_guard (m : Char → List Char → Option (List Char × Nat))
    (G : Char → Bool) (hg : ∀ c cs, G c = false → m c cs = none) :
    ∀ cs : List Char, (∀ c ∈ cs, G c = false) → SkipOK0 m cs := by
  intro cs
  induction cs with
  | nil => intro _; trivial
  | cons c cs ih =>
    intro h
    exact ⟨hg c cs (h c (List.mem_cons_self c cs)),
      ih (fun x hx => h x (List.mem_cons_of_mem c hx))⟩

theorem skipOKP_of_guard (m : Option Char → Char → List Char → Option (List Char × Nat))
    (G : Char → Bool) (hg : ∀ p c cs, G c = false → m p c cs = none) :
    ∀ (cs : List Char) (p : Option Char), (∀ c ∈ cs, G c = false) → SkipOKP m p cs := by
  intro cs
  induction cs with
  | nil => intro p _; trivial
  | cons c cs ih =>
    intro p h
    exact ⟨hg p c cs (h c (List.mem_cons_self c cs)),
      ih (some c) (fun x hx => h x (List.mem_cons_of_mem c hx))⟩

/-- Fuel does not matter once it exceeds the input length. -/
theorem scanSub_fuel (m : Char → List Char → Option (List Char × Nat))
    (r : List Char → List Char) :
    ∀ (f g : Nat) (cs : List Char), cs.length < f → cs.length < g →
      scanSub m r f cs = scanSub m r g cs := by
  intro f
  induction f with
  | zero => intro g cs hf; omega
  | succ f ih =>
    intro g cs hf hg
    cases cs with
    | nil => rw [scanSub_nil, scanSub_nil]
    | cons c cs =>
      match g, hg with
      | g + 1, hg =>
        simp only [List.length_cons] at hf hg
        cases hm : m c cs with
        | none =>
          show scanSub m r (f + 1) (c :: cs) = scanSub m r (g + 1) (c :: cs)
          simp only [scanSub, hm]
          rw [ih g cs (by omega) (by omega)]
        | some v =>
          obtain ⟨gr, k⟩ := v
          show scanSub m r (f + 1) (c :: cs) = scanSub m r (g + 1) (c :: cs)
          simp only [scanSub, hm]
          have hd : (cs.drop k).length ≤ cs.length := by
            simp [List.length_drop]
          rw [ih g (cs.drop k) (by omega) (by omega)]

theorem scanSubP_fuel (m : Option Char → Char → List Char → Option (List Char × Nat))
    (r : List Char → List Char) :
    ∀ (f g : Nat) (p : Option Char) (cs : List Char), cs.length < f → cs.length < g →
      scanSubP m r f p cs = scanSubP m r g p cs := by
  intro f
  induction f with
  | zero => intro g p cs hf; omega
  | succ f ih =>
    intro g p cs hf hg
    cases cs with
    | nil => rw [scanSubP_nil, scanSubP_nil]
    | cons c cs =>
      match g, hg with
      | g + 1, hg =>
        simp only [List.length_cons] at hf hg
        cases hm : m p c cs with
        | none =>
          show scanSubP m r (f + 1) p (c :: cs) = scanSubP m r (g + 1) p (c :: cs)
          simp only [scanSubP, hm]
          rw [ih g (some c) cs (by omega) (by omega)]
        | some v =>
          obtain ⟨gr, k⟩ := v
          show scanSubP m r (f + 1) p (c :: cs) = scanSubP m r (g + 1) p (c :: cs)
          simp only [scanSubP, hm]
          have hd : (cs.drop k).length ≤ cs.length := by
            simp [List.length_drop]
          rw [ih g _ (cs.drop k) (by omega) (by omega)]

/-- One scanner step with the canonical fuel: no match at the head. -/
theorem runSub_cons_none (m : Char → List Char → Option (List Char × Nat))
    (r : List Char → List Char) (c : Char) (cs : List Char) (h : m c cs = none) :
    runSub m r (c :: cs) = c :: runSub m r cs := by
  show scanSub m r ((c :: cs).length + 1) (c :: cs) = _
  rw [show (c :: cs).length + 1 = (cs.length + 1) + 1 from by simp]
  simp only [scanSub, h]
  rfl

/-- One scanner step with the canonical fuel: a match at the head. -/
theorem runSub_cons_some (m : Char → List Char → Option (List Char × Nat))
    (r : List Char → List Char) (c : Char) (cs g : List Char) (k : Nat)
    (h : m c cs = some (g, k)) :
    runSub m r (c :: cs) = r g ++ runSub m r (cs.drop k) := by
  show scanSub m r ((c :: cs).length + 1) (c :: cs) = _
  rw [show (c :: cs).length + 1 = (cs.length + 1) + 1 from by simp]
  simp only [scanSub, h]
  have hd : (cs.drop k).length ≤ cs.length := by simp [List.length_drop]
  rw [scanSub_fuel m r (cs.length + 1) ((cs.drop k).length + 1) (cs.drop k)
    (by omega) (by omega)]
  rfl

/-- One lookbehind-scanner step with the canonical fuel and running prev. -/
def runAtP (m : Option Char → Char → List Char → Option (List Char × Nat))
    (r : List Char → List Char) (p : Option Char) (cs : List Char) : List Char :=
  scanSubP m r (cs.length + 1) p cs

theorem runSubP_eq_runAtP (m : Option Char → Char → List Char → Option (List Char × Nat))
    (r : List Char → List Char) (cs : List Char) : runSubP m r cs = runAtP m r none cs := rfl

theorem runAtP_skip (m : Option Char → Char → List Char → Option (List Char × Nat))
    (r : List Char → List Char) (p : Option Char) (cs : List Char) (h : SkipOKP m p cs) :
    runAtP m r p cs = cs :=
  scanSubP_skip m r _ p cs h

theorem runAtP_cons_none (m : Option Char → Char → List Char → Option (List Char × Nat))
    (r : List Char → List Char) (p : Option Char) (c : Char) (cs : List Char)
    (h : m p c cs = none) :
    runAtP m r p (c :: cs) = c :: runAtP m r (some c) cs := by
  show scanSubP m r ((c :: cs).length + 1) p (c :: cs) = _
  rw [show (c :: cs).length + 1 = (cs.length + 1) + 1 from by simp]
  simp only [scanSubP, h]
  rfl

theorem runAtP_cons_some (m : Option Char → Char → List Char → Option (List Char × Nat))
    (r : List Char → List Char) (p : Option Char) (c : Char) (cs g : List Char) (k : Nat)
    (h : m p c cs = some (g, k)) :
    runAtP m r p (c :: cs) =
      r g ++ runAtP m r (some ((cs.take k).getLastD c)) (cs.drop k) := by
  show scanSubP m r ((c :: cs).length + 1) p (c :: cs) = _
  rw [show (c :: cs).length + 1 = (cs.length + 1) + 1 from by simp]
  simp only [scanSubP, h]
  have hd : (cs.drop k).length ≤ cs.length := by simp [List.length_drop]
  rw [scanSubP_fuel m r (cs.length + 1) ((cs.drop k).length + 1) _ (cs.drop k)
    (by omega) (by omega)]
  rfl

theorem takeWhile_append_all (p : Char → Bool) (xs ys : List Char)
    (h : ∀ a ∈ xs, p a = true) :
    (xs ++ ys).takeWhile p = xs ++ ys.takeWhile p := by
  induction xs with
  | nil => rfl
  | cons a xs ih =>
    have ha : p a = true := h a (List.mem_cons_self a xs)
    simp [List.takeWhile_cons, ha, ih (fun x hx => h x (List.mem_cons_of_mem a hx))]

theorem takeWhile_all (p : Char → Bool) (xs : List Char) (h : ∀ a ∈ xs, p a = true) :
    xs.takeWhile p = xs := by
  have := takeWhile_append_all p xs [] h
  simpa using this

/-! ### Guard facts for the inline matchers -/

theorem matchTexInline_guard (c : Char) (cs : List Char) (h : c ≠ '\\') :
    matchTexInline c cs = none := by simp [matchTexInline, h]

theorem matchTexDisplay_guard (c : Char) (cs : List Char) (h : c ≠ '\\') :
    matchTexDisplay c cs = none := by simp [matchTexDisplay, h]

theorem matchDD_guard (c : Char) (cs : List Char) (h : c ≠ '$') :
    matchDD c cs = none := by simp [matchDD, h]

theorem matchBold_guard (c : Char) (cs : List Char) (h : c ≠ '*') :
    matchBold c cs = none := by simp [matchBold, h]

theorem matchEm_guard (c : Char) (cs : List Char) (h : c ≠ '*') :
    matchEm c cs = none := by simp [matchEm, h]

theorem matchCode_guard (c : Char) (cs : List Char) (h : c ≠ '`') :
    matchCode c cs = none := by simp [matchCode, h]

theorem matchDollar_guard (p : Option Char) (c : Char) (cs : List Char) (h : c ≠ '$') :
    matchDollar p c cs = none := by simp [matchDollar, h]

theorem matchUrl2_guard (p : Option Char) (c : Char) (cs : List Char) (h : c ≠ 'h') :
    matchUrl2 p c cs = none := by simp [matchUrl2, h]

theorem httpData : ("http" : String).data = ['h', 't', 't', 'p'] := rfl

/-- The four-character case-insensitive http test at the head of a list. -/
def isHttpAt (l : List Char) : Bool := prefixCI "http".data l

theorem isHttpAt_cons_false (c : Char) (l : List Char) (h : Char.toLower c ≠ 'h') :
    isHttpAt (c :: l) = false := by
  simp [isHttpAt, httpData, prefixCI, Ne.symm h]

theorem matchUrl1_guard (c : Char) (cs : List Char) (h : Char.toLower c ≠ 'h') :
    matchUrl1 c cs = none := by
  have hpre : prefixCI "http".data (c :: cs) = false := by
    simp [httpData, prefixCI, Ne.symm h]
  simp [matchUrl1, schemeLenCI, hpre]

theorem matchUrl1_isHttp (c : Char) (cs : List Char) (v : List Char × Nat)
    (h : matchUrl1 c cs = some v) : isHttpAt (c :: cs) = true := by
  by_contra hn
  have hf : prefixCI "http".data (c :: cs) = false := by
    simpa [isHttpAt] using Bool.eq_false_iff.mpr (fun he => hn (by simp [isHttpAt, he]))
  simp [matchUrl1, schemeLenCI, hf] at h

theorem isPrefixL_imp_CI :
    ∀ (pat l : List Char), (∀ x ∈ pat, Char.toLower x = x) → isPrefixL pat l = true →
      prefixCI pat l = true := by
  intro pat
  induction pat with
  | nil => intro l _ _; rfl
  | cons p ps ih =>
    intro l hl h
    cases l with
    | nil => simp [isPrefixL] at h
    | cons c cs =>
      simp only [isPrefixL, Bool.and_eq_true, decide_eq_true_eq] at h
      obtain ⟨h1, h2⟩ := h
      have hp : Char.toLower p = p := hl p (List.mem_cons_self p ps)
      simp only [prefixCI, Bool.and_eq_true, decide_eq_true_eq]
      exact ⟨by rw [← h1, hp], ih cs (fun x hx => hl x (List.mem_cons_of_mem p hx)) h2⟩

theorem matchUrl2_isHttp (p : Option Char) (c : Char) (cs : List Char) (v : List Char × Nat)
    (h : matchUrl2 p c cs = some v) : isHttpAt (c :: cs) = true := by
  by_cases hcs : isPrefixL "http".data (c :: cs) = true
  · exact isPrefixL_imp_CI _ _ (by decide) hcs
  · have hf : isPrefixL "http".data (c :: cs) = false := Bool.eq_false_iff.mpr hcs
    simp [matchUrl2, schemeLenCS, hf] at h

/-- Case-insensitive occurrence of http anywhere in the list. -/
def hasHttp : List Char → Bool
  | [] => false
  | c :: cs => isHttpAt (c :: cs) || hasHttp cs

theorem prefixCI_append_left :
    ∀ (pat xs ys : List Char), pat.length ≤ xs.length →
      prefixCI pat (xs ++ ys) = prefixCI pat xs := by
  intro pat
  induction pat with
  | nil => intro xs ys _; rfl
  | cons p ps ih =>
    intro xs ys hl
    cases xs with
    | nil => simp at hl
    | cons x xs =>
      simp only [List.length_cons] at hl
      simp only [List.cons_append, prefixCI, List.append_eq]
      rw [ih xs ys (by omega)]

theorem isHttpAt_append_left (xs ys : List Char) (h : 4 ≤ xs.length) :
    isHttpAt (xs ++ ys) = isHttpAt xs := by
  simp only [isHttpAt, httpData]
  exact prefixCI_append_left _ xs ys (by simpa using h)

theorem isHttpAt_short_break (xs : List Char) (c : Char) (ys : List Char)
    (hlen : xs.length ≤ 3) (h1 : Char.toLower c ≠ 'h') (h2 : Char.toLower c ≠ 't')
    (h3 : Char.toLower c ≠ 'p') : isHttpAt (xs ++ c :: ys) = false := by
  match xs, hlen with
  | [], _ => exact isHttpAt_cons_false c ys h1
  | [a], _ => simp [isHttpAt, httpData, prefixCI, Ne.symm h2]
  | [a, b], _ => simp [isHttpAt, httpData, prefixCI, Ne.symm h2]
  | [a, b, d], _ => simp [isHttpAt, httpData, prefixCI, Ne.symm h3]
  | a :: b :: d :: e :: xs, hlen => simp at hlen

theorem hasHttp_append_break (xs : List Char) (c : Char) (ys : List Char)
    (hxs : hasHttp xs = false) (h1 : Char.toLower c ≠ 'h') (h2 : Char.toLower c ≠ 't')
    (h3 : Char.toLower c ≠ 'p') (hys : hasHttp (c :: ys) = false) :
    hasHttp (xs ++ c :: ys) = false := by
  induction xs with
  | nil => simpa using hys
  | cons a xs ih =>
    simp only [hasHttp, Bool.or_eq_false_iff] at hxs
    obtain ⟨hx1, hx2⟩ := hxs
    have htail : hasHttp (xs ++ c :: ys) = false := ih hx2
    have hhead : isHttpAt (a :: (xs ++ c :: ys)) = false := by
      by_cases hl : 4 ≤ (a :: xs).length
      · rw [show a :: (xs ++ c :: ys) = (a :: xs) ++ (c :: ys) from rfl,
          isHttpAt_append_left _ _ hl]
        exact hx1
      · rw [show a :: (xs ++ c :: ys) = (a :: xs) ++ (c :: ys) from rfl]
        exact isHttpAt_short_break (a :: xs) c ys (by simp at hl ⊢; omega) h1 h2 h3
    simp [hasHttp, hhead, htail]

theorem skipOK0_url1 : ∀ cs : List Char, hasHttp cs = false → SkipOK0 matchUrl1 cs := by
  intro cs
  induction cs with
  | nil => intro _; trivial
  | cons c cs ih =>
    intro h
    simp only [hasHttp, Bool.or_eq_false_iff] at h
    refine ⟨?_, ih h.2⟩
    cases hm : matchUrl1 c cs with
    | none => rfl
    | some v => exact absurd (matchUrl1_isHttp c cs v hm) (by simp [h.1])

theorem skipOKP_url2 : ∀ (cs : List Char), hasHttp cs = false →
    ∀ p : Option Char, SkipOKP matchUrl2 p cs := by
  intro cs
  induction cs with
  | nil => intro _ p; trivial
  | cons c cs ih =>
    intro h p
    simp only [hasHttp, Bool.or_eq_false_iff] at h
    refine ⟨?_, ih h.2 (some c)⟩
    cases hm : matchUrl2 p c cs with
    | none => rfl
    | some v => exact absurd (matchUrl2_isHttp p c cs v hm) (by simp [h.1])

theorem sigmaSub_id : ∀ cs : List Char, (∀ c ∈ cs, c ≠ 'σ') → sigmaSub cs = cs := by
  intro cs
  induction cs with
  | nil => intro _; rfl
  | cons c cs ih =>
    intro h
    have hc : c ≠ 'σ' := h c (List.mem_cons_self c cs)
    simp [sigmaSub, hc, ih (fun x hx => h x (List.mem_cons_of_mem c hx))]

theorem hasHttp_cons_break (c : Char) (l : List Char) (hc : Char.toLower c ≠ 'h')
    (hl : hasHttp l = false) : hasHttp (c :: l) = false := by
  simp [hasHttp, isHttpAt_cons_false c l hc, hl]

theorem drop_append_cons (x : List Char) (c : Char) (r : List Char) :
    (x ++ c :: r).drop (x.length + 1) = r := by
  rw [show x ++ c :: r = (x ++ [c]) ++ r from by simp,
    show x.length + 1 = (x ++ [c]).length from by simp]
  exact List.drop_left _ _

theorem take_append_cons (x : List Char) (c : Char) (r : List Char) :
    (x ++ c :: r).take (x.length + 1) = x ++ [c] := by
  rw [show x ++ c :: r = (x ++ [c]) ++ r from by simp,
    show x.length + 1 = (x ++ [c]).length from by simp]
  exact List.take_left _ _

/-- Behind the opening delimiter of a double-dollar pair, the single-dollar
rule finds no match: the lazy group would have to start at a dollar or end at
the trailing pair. -/
theorem skipOKP_dollar_tail :
    ∀ (y : List Char) (p : Option Char), '$' ∉ y →
      SkipOKP matchDollar p (y ++ ['$', '$']) := by
  intro y
  induction y with
  | nil =>
    intro p _
    refine ⟨?_, ?_, trivial⟩
    · by_cases hp : p = some '\\' <;> simp [matchDollar, hp]
    · by_cases hp : (some '$' : Option Char) = some '\\' <;> simp [matchDollar, hp]
  | cons c y ih =>
    intro p h
    have hc : c ≠ '$' := by
      intro he
      exact h (by simp [he])
    exact ⟨matchDollar_guard p c _ hc, ih (some c) (fun hm => h (List.mem_cons_of_mem c hm))⟩

theorem not_mem_appendC (a : Char) (l1 l2 : List Char) (h1 : a ∉ l1) (h2 : a ∉ l2) :
    a ∉ l1 ++ l2 := fun h => (List.mem_append.mp h).elim h1 h2

theorem not_mem_consC (a c : Char) (l : List Char) (h1 : a ≠ c) (h2 : a ∉ l) :
    a ∉ c :: l := fun h => (List.mem_cons.mp h).elim h1 h2

theorem guard_of_not_mem (tr : Char) (cs : List Char) (h : tr ∉ cs) :
    ∀ c ∈ cs, decide (c = tr) = false :=
  fun _ hc => decide_eq_false (fun he => h (he ▸ hc))

theorem bptrue_of_not_mem (tr : Char) (cs : List Char) (h : tr ∉ cs) :
    ∀ c ∈ cs, (c ≠ tr : Bool) = true :=
  fun c hc => by
    have : c ≠ tr := fun he => h (he ▸ hc)
    simpa using this

/-- C3 auxiliary: full computation of format_inline on a bold-wrapped
single-dollar line. -/
theorem formatInline_bold_dollar (x : List Char) (hne : x ≠ [])
    (hspec : ∀ c ∈ x, c ∉ ['$', '*', '\\', '`', 'σ'])
    (hhttp : hasHttp x = false) :
    formatInline ("**$".data ++ x ++ "$**".data) =
      "<strong><span class=\"math-inline\">\\(".data ++ x ++ "\\)</span></strong>".data := by
  have hxd : ∀ c ∈ x, c ≠ '$' := fun c hc => by have := hspec c hc; simp at this; exact this.1
  have hxs : ∀ c ∈ x, c ≠ '*' := fun c hc => by have := hspec c hc; simp at this; exact this.2.1
  have hxb : ∀ c ∈ x, c ≠ '\\' := fun c hc => by have := hspec c hc; simp at this; exact this.2.2.1
  have hxt : ∀ c ∈ x, c ≠ '`' := fun c hc => by have := hspec c hc; simp at this; exact this.2.2.2.1
  have hxg : ∀ c ∈ x, c ≠ 'σ' := fun c hc => by have := hspec c hc; simp at this; exact this.2.2.2.2
  have hxd2 : '$' ∉ x := fun hm => hxd '$' hm rfl
  have hxs2 : '*' ∉ x := fun hm => hxs '*' hm rfl
  have hxb2 : '\\' ∉ x := fun hm => hxb '\\' hm rfl
  have hxt2 : '`' ∉ x := fun hm => hxt '`' hm rfl
  have hxg2 : 'σ' ∉ x := fun hm => hxg 'σ' hm rfl
  have hshape : "**$".data ++ x ++ "$**".data = '*' :: '*' :: '$' :: (x ++ ['$', '*', '*']) := by
    simp
  -- stages 1 and 2: no URL anywhere
  have hs0 : hasHttp ("**$".data ++ x ++ "$**".data) = false := by
    rw [hshape]
    exact hasHttp_cons_break '*' _ (by decide)
      (hasHttp_cons_break '*' _ (by decide)
        (hasHttp_cons_break '$' _ (by decide)
          (hasHttp_append_break x '$' ['*', '*'] hhttp (by decide) (by decide) (by decide)
            (by decide))))
  have h1 : runSub matchUrl1 replImg1 ("**$".data ++ x ++ "$**".data) =
      "**$".data ++ x ++ "$**".data :=
    scanSub_skip _ _ _ _ (skipOK0_url1 _ hs0)
  have h2 : runSubP matchUrl2 replImg2 ("**$".data ++ x ++ "$**".data) =
      "**$".data ++ x ++ "$**".data :=
    scanSubP_skip _ _ _ _ _ (skipOKP_url2 _ hs0 none)
  -- stages 3 and 4: no backslash anywhere
  have hnobs : '\\' ∉ "**$".data ++ x ++ "$**".data := by
    rw [hshape]
    exact not_mem_consC _ _ _ (by decide) (not_mem_consC _ _ _ (by decide)
      (not_mem_consC _ _ _ (by decide) (not_mem_appendC _ _ _ hxb2 (by decide))))
  have h3 : runSub matchTexInline replTexInline ("**$".data ++ x ++ "$**".data) =
      "**$".data ++ x ++ "$**".data :=
    scanSub_skip _ _ _ _ (skipOK0_of_guard _ (fun c => decide (c = '\\'))
      (fun c cs hf => matchTexInline_guard c cs (by simpa using hf)) _
      (guard_of_not_mem _ _ hnobs))
  have h4 : runSub matchTexDisplay replTexDisplay ("**$".data ++ x ++ "$**".data) =
      "**$".data ++ x ++ "$**".data :=
    scanSub_skip _ _ _ _ (skipOK0_of_guard _ (fun c => decide (c = '\\'))
      (fun c cs hf => matchTexDisplay_guard c cs (by simpa using hf)) _
      (guard_of_not_mem _ _ hnobs))
  -- stage 5: the single-dollar rule fires
  have hm5 : matchDollar (some '*') '$' (x ++ ['$', '*', '*']) = some (x, x.length + 1) := by
    have htw : (x ++ ['$', '*', '*']).takeWhile (fun c => (c ≠ '$' : Bool)) = x := by
      rw [takeWhile_append_all _ x _ (fun a ha => by simpa using hxd a ha)]
      simp
    have hlen : ¬(x.length = 0) := fun h => hne (List.length_eq_zero.mp h)
    simp only [matchDollar, if_pos rfl, htw]
    rw [if_neg (by simp : ¬(some '*' = some '\\'))]
    simp only [htw, hlen, if_neg hlen, List.drop_left]
    simp
  have h5 : runSubP matchDollar replTexInline ("**$".data ++ x ++ "$**".data) =
      '*' :: '*' :: (replTexInline x ++ ['*', '*']) := by
    rw [runSubP_eq_runAtP, hshape]
    rw [runAtP_cons_none _ _ _ _ _ (matchDollar_guard none '*' _ (by decide))]
    rw [runAtP_cons_none _ _ _ _ _ (matchDollar_guard (some '*') '*' _ (by decide))]
    rw [runAtP_cons_some _ _ _ _ _ _ _ hm5]
    rw [drop_append_cons]
    rw [runAtP_skip _ _ _ _ (skipOKP_of_guard _ (fun c => decide (c = '$'))
      (fun p c cs hf => matchDollar_guard p c cs (by simpa using hf)) _ _
      (guard_of_not_mem _ _ (by decide)))]
  -- the span produced in stage 5
  have hspan_d : '$' ∉ replTexInline x :=
    not_mem_appendC _ _ _ (not_mem_appendC _ _ _ (by decide) hxd2) (by decide)
  have hspan_s : '*' ∉ replTexInline x :=
    not_mem_appendC _ _ _ (not_mem_appendC _ _ _ (by decide) hxs2) (by decide)
  have hspan_t : '`' ∉ replTexInline x :=
    not_mem_appendC _ _ _ (not_mem_appendC _ _ _ (by decide) hxt2) (by decide)
  have hspan_g : 'σ' ∉ replTexInline x :=
    not_mem_appendC _ _ _ (not_mem_appendC _ _ _ (by decide) hxg2) (by decide)
  -- stage 6: no dollar left
  have hnd5 : '$' ∉ '*' :: '*' :: (replTexInline x ++ ['*', '*']) :=
    not_mem_consC _ _ _ (by decide) (not_mem_consC _ _ _ (by decide)
      (not_mem_appendC _ _ _ hspan_d (by decide)))
  have h6 : runSub matchDD replTexDisplay ('*' :: '*' :: (replTexInline x ++ ['*', '*'])) =
      '*' :: '*' :: (replTexInline x ++ ['*', '*']) :=
    scanSub_skip _ _ _ _ (skipOK0_of_guard _ (fun c => decide (c = '$'))
      (fun c cs hf => matchDD_guard c cs (by simpa using hf)) _
      (guard_of_not_mem _ _ hnd5))
  -- stage 7: bold fires around the span
  have hm7 : matchBold '*' ('*' :: (replTexInline x ++ ['*', '*'])) =
      some (replTexInline x, 1 + (replTexInline x).length + 2) := by
    have htw : (replTexInline x ++ ['*', '*']).takeWhile (fun c => (c ≠ '*' : Bool)) =
        replTexInline x := by
      rw [takeWhile_append_all _ _ _ (bptrue_of_not_mem _ _ hspan_s)]
      simp
    have hlen : ¬((replTexInline x).length = 0) := by
      simp [replTexInline, List.length_append]
    simp only [matchBold, if_pos rfl, htw]
    simp only [hlen, if_neg hlen, List.drop_left]
    simp
  have h7 : runSub matchBold replBold ('*' :: '*' :: (replTexInline x ++ ['*', '*'])) =
      replBold (replTexInline x) := by
    rw [runSub_cons_some _ _ _ _ _ _ hm7]
    have hdr : ('*' :: (replTexInline x ++ ['*', '*'])).drop
        (1 + (replTexInline x).length + 2) = [] := by
      apply List.drop_eq_nil_of_le
      simp
      omega
    rw [hdr]
    have hz : runSub matchBold replBold [] = [] := rfl
    rw [hz]
    simp
  -- stages 8 to 10 leave the strong-wrapped span unchanged
  have hb_s : '*' ∉ replBold (replTexInline x) :=
    not_mem_appendC _ _ _ (not_mem_appendC _ _ _ (by decide) hspan_s) (by decide)
  have hb_t : '`' ∉ replBold (replTexInline x) :=
    not_mem_appendC _ _ _ (not_mem_appendC _ _ _ (by decide) hspan_t) (by decide)
  have hb_g : 'σ' ∉ replBold (replTexInline x) :=
    not_mem_appendC _ _ _ (not_mem_appendC _ _ _ (by decide) hspan_g) (by decide)
  have h8 : runSub matchEm replEm (replBold (replTexInline x)) = replBold (replTexInline x) :=
    scanSub_skip _ _ _ _ (skipOK0_of_guard _ (fun c => decide (c = '*'))
      (fun c cs hf => matchEm_guard c cs (by simpa using hf)) _
      (guard_of_not_mem _ _ hb_s))
  have h9 : runSub matchCode replCode (replBold (replTexInline x)) =
      replBold (replTexInline x) :=
    scanSub_skip _ _ _ _ (skipOK0_of_guard _ (fun c => decide (c = '`'))
      (fun c cs hf => matchCode_guard c cs (by simpa using hf)) _
      (guard_of_not_mem _ _ hb_t))
  have h10 : sigmaSub (replBold (replTexInline x)) = replBold (replTexInline x) :=
    sigmaSub_id _ (fun c hc => fun he => hb_g (he ▸ hc))
  -- assemble the pipeline
  show sigmaSub (runSub matchCode replCode (runSub matchEm replEm (runSub matchBold replBold
    (runSub matchDD replTexDisplay (runSubP matchDollar replTexInline
      (runSub matchTexDisplay replTexDisplay (runSub matchTexInline replTexInline
        (runSubP matchUrl2 replImg2 (runSub matchUrl1 replImg1
          ("**$".data ++ x ++ "$**".data)))))))))) = _
  rw [h1, h2, h3, h4, h5, h6, h7, h8, h9, h10]
  show "<strong>".data ++ ("<span class=\"math-inline\">\\(".data ++ x ++ "\\)</span>".data) ++
      "</strong>".data = _
  rw [show ("<strong><span class=\"math-inline\">\\(" : String).data =
    "<strong>".data ++ "<span class=\"math-inline\">\\(".data from rfl]
  rw [show ("\\)</span></strong>" : String).data =
    "\\)</span>".data ++ "</strong>".data from rfl]
  simp [List.append_assoc]

/-- C3 auxiliary: the single-dollar rule does not match inside a
double-dollar pair. -/
theorem dollarPass_double (y : List Char) (hne : y ≠ []) (hy : '$' ∉ y) :
    runSubP matchDollar replTexInline ("$$".data ++ y ++ "$$".data) =
      "$$".data ++ y ++ "$$".data := by
  have hshape : "$$".data ++ y ++ "$$".data = '$' :: '$' :: (y ++ ['$', '$']) := by simp
  rw [runSubP_eq_runAtP, hshape]
  have hm1 : matchDollar none '$' ('$' :: (y ++ ['$', '$'])) = none := by
    simp [matchDollar]
  rw [runAtP_cons_none _ _ _ _ _ hm1]
  have hm2 : matchDollar (some '$') '$' (y ++ ['$', '$']) = none := by
    have htw : (y ++ ['$', '$']).takeWhile (fun c => (c ≠ '$' : Bool)) = y := by
      rw [takeWhile_append_all _ y _ (bptrue_of_not_mem _ _ hy)]
      simp
    have hlen : ¬(y.length = 0) := fun h => hne (List.length_eq_zero.mp h)
    simp only [matchDollar, if_pos rfl, htw]
    rw [if_neg (by simp : ¬(some '$' = some '\\'))]
    simp only [if_neg hlen, List.drop_left]
    simp
  rw [runAtP_cons_none _ _ _ _ _ hm2]
  rw [runAtP_skip _ _ _ _ (skipOKP_dollar_tail y (some '$') hy)]

/-- C3: a line of the form two asterisks, dollar, math text, dollar, two
asterisks formats to a strong element whose content is exactly the
math-inline span (never a broken or partially substituted tag), the math text
being any nonempty text free of the inline metacharacters and of http; and
the single-dollar rule, which runs before the double-dollar rule, does not
match the inner dollars of a double-dollar pair. -/
theorem c3_bold_math :
    (∀ x : List Char, x ≠ [] → (∀ c ∈ x, c ∉ ['$', '*', '\\', '`', 'σ']) →
      hasHttp x = false →
      formatInline ("**$".data ++ x ++ "$**".data) =
        "<strong><span class=\"math-inline\">\\(".data ++ x ++ "\\)</span></strong>".data) ∧
    (∀ y : List Char, y ≠ [] → '$' ∉ y →
      runSubP matchDollar replTexInline ("$$".data ++ y ++ "$$".data) =
        "$$".data ++ y ++ "$$".data) :=
  ⟨formatInline_bold_dollar, dollarPass_double⟩

theorem c3_witness :
    formatInline ("**$".data ++ ['x'] ++ "$**".data) =
      "<strong><span class=\"math-inline\">\\(".data ++ ['x'] ++ "\\)</span></strong>".data ∧
    runSubP matchDollar replTexInline ("$$".data ++ ['y'] ++ "$$".data) =
      "$$".data ++ ['y'] ++ "$$".data :=
  ⟨c3_bold_math.1 ['x'] (by decide) (by decide) (by decide),
   c3_bold_math.2 ['y'] (by decide) (by decide)⟩

/-! ### C5 infrastructure -/

theorem getLast_filterMap_range {α : Type} (f : Nat → Option α) (len n : Nat) (v : α)
    (hn : n < len) (hv : f n = some v) (hafter : ∀ m, n < m → m < len → f m = none) :
    ((List.range len).filterMap f).getLast? = some v := by
  have hsplit : List.range len =
      List.range (n + 1) ++ (List.range (len - (n + 1))).map (fun i => (n + 1) + i) := by
    rw [← List.range_add]
    congr 1
    omega
  rw [hsplit, List.filterMap_append]
  have h2 : ((List.range (len - (n + 1))).map (fun i => (n + 1) + i)).filterMap f = [] := by
    rw [List.filterMap_map]
    rw [List.filterMap_eq_nil_iff]
    intro a ha
    rw [List.mem_range] at ha
    exact hafter ((n + 1) + a) (by omega) (by omega)
  rw [h2, List.append_nil, List.range_succ, List.filterMap_append]
  have h3 : List.filterMap f [n] = [v] := by simp [List.filterMap, hv]
  rw [h3]
  exact List.getLast?_concat _

theorem prefixCI_no_dot :
    ∀ (pat ext : List Char), prefixCI pat ext = true → ext.length ≤ pat.length →
      '.' ∉ pat → '.' ∉ ext := by
  intro pat
  induction pat with
  | nil =>
    intro ext _ hl _
    have : ext = [] := List.length_eq_zero.mp (by simpa using hl)
    simp [this]
  | cons p ps ih =>
    intro ext h hl hp
    cases ext with
    | nil => simp
    | cons c cs =>
      simp only [prefixCI, Bool.and_eq_true, decide_eq_true_eq] at h
      obtain ⟨h1, h2⟩ := h
      simp only [List.mem_cons, not_or] at hp ⊢
      refine ⟨?_, ih cs h2 (by simpa using hl) hp.2⟩
      intro he
      subst he
      exact hp.1 h1.symm

theorem extNoDot (ext : List Char) (h : extMatch ext = some ext.length) : '.' ∉ ext := by
  unfold extMatch at h
  split_ifs at h with h1 h2 h3 h4 h5 h6 h7
  all_goals
    injection h with h
    exact prefixCI_no_dot _ ext (by assumption) (by rw [← h]; decide) (by decide)

/-- The character preceding the position right after `xs` when scanning from a
position whose preceding character is `p`. -/
def prevOut : List Char → Option Char → Option Char
  | [], p => p
  | c :: cs, _ => some (List.getLastD cs c)

theorem prevOut_cons (c : Char) (cs : List Char) (p : Option Char) :
    prevOut (c :: cs) p = prevOut cs (some c) := by
  cases cs with
  | nil => rfl
  | cons d cs =>
    show some (List.getLastD (d :: cs) c) = some (List.getLastD cs d)
    rw [List.getLastD_cons]

theorem skipOKP_prefix (m : Option Char → Char → List Char → Option (List Char × Nat))
    (G : Char → Bool) (hg : ∀ p c cs, G c = false → m p c cs = none) :
    ∀ (xs ys : List Char) (p : Option Char), (∀ c ∈ xs, G c = false) →
      SkipOKP m (prevOut xs p) ys → SkipOKP m p (xs ++ ys) := by
  intro xs
  induction xs with
  | nil => intro ys p _ hy; exact hy
  | cons c xs ih =>
    intro ys p hx hy
    rw [prevOut_cons] at hy
    exact ⟨hg p c _ (hx c (List.mem_cons_self c xs)),
      ih ys (some c) (fun a ha => hx a (List.mem_cons_of_mem c ha)) hy⟩

theorem matchUrl2_blocked (p : Option Char) (c : Char) (cs : List Char)
    (h : p = some '"' ∨ p = some '\'' ∨ p = some '=') : matchUrl2 p c cs = none := by
  by_cases hc : c = 'h'
  · simp [matchUrl2, hc, h]
  · simp [matchUrl2, hc]

theorem runSub_whole (m : Char → List Char → Option (List Char × Nat))
    (r : List Char → List Char) (c : Char) (cs : List Char)
    (h : m c cs = some (c :: cs, (c :: cs).length - 1)) :
    runSub m r (c :: cs) = r (c :: cs) := by
  rw [runSub_cons_some _ _ _ _ _ _ h]
  have hd : cs.drop ((c :: cs).length - 1) = [] := by
    apply List.drop_eq_nil_of_le
    simp
  rw [hd]
  have hz : runSub m r [] = [] := rfl
  rw [hz, List.append_nil]

theorem runSubP_whole (m : Option Char → Char → List Char → Option (List Char × Nat))
    (r : List Char → List Char) (c : Char) (cs : List Char)
    (h : m none c cs = some (c :: cs, (c :: cs).length - 1)) :
    runSubP m r (c :: cs) = r (c :: cs) := by
  rw [runSubP_eq_runAtP, runAtP_cons_some _ _ _ _ _ _ _ h]
  have hd : cs.drop ((c :: cs).length - 1) = [] := by
    apply List.drop_eq_nil_of_le
    simp
  rw [hd]
  have hz : ∀ q, runAtP m r q [] = [] := fun q => rfl
  rw [hz, List.append_nil]

theorem getD_not_mem (l : List Char) (d a : Char) (hd : a ≠ d) (hm : a ∉ l) :
    ∀ j, l.getD j d ≠ a := by
  intro j
  by_cases hj : j < l.length
  · rw [List.getD_eq_getElem l d hj]
    intro he
    exact hm (he ▸ List.getElem_mem hj)
  · rw [List.getD_eq_default l d (by omega)]
    exact Ne.symm hd



theorem length_pos_of_ne_nil {l : List Char} (h : l ≠ []) : 1 ≤ l.length := by
  cases l with
  | nil => exact absurd rfl h
  | cons a l => simp

theorem matchUrl1_img_http (body stem ext : List Char)
    (hb : body = stem ++ '.' :: ext)
    (hbc : ∀ c ∈ body, urlChar c = true)
    (hstem : stem ≠ []) (hext : extMatch ext = some ext.length) :
    matchUrl1 'h' ("ttp://".data ++ body) =
      some ("http://".data ++ body, ("http://".data ++ body).length - 1) := by
  have hfull : ('h' :: ("ttp://".data ++ body)) = "http://".data ++ body := rfl
  have hsl : schemeLenCI ('h' :: ("ttp://".data ++ body)) = some 7 := rfl
  have hdrop7 : ('h' :: ("ttp://".data ++ body)).drop 7 = body := rfl
  have htw : body.takeWhile urlChar = body := takeWhile_all _ _ hbc
  have hone : 1 ≤ stem.length := length_pos_of_ne_nil hstem
  have hgd : body[stem.length]?.getD ' ' = '.' := by
    rw [hb, List.getElem?_append_right (Nat.le_refl _)]
    simp
  have hed : extMatch (body.drop (stem.length + 1)) = some ext.length := by
    rw [hb, drop_append_cons]
    exact hext
  have hnd : '.' ∉ ext := extNoDot ext hext
  have hlenb : body.length = stem.length + 1 + ext.length := by
    rw [hb]
    simp [List.length_append]
    omega
  have hlast : ((List.range body.length).filterMap (fun j =>
      if 1 ≤ j ∧ body.getD j ' ' = '.' then
        match extMatch (body.drop (j + 1)) with
        | some e => some (j, e)
        | none => none
      else none)).getLast? = some (stem.length, ext.length) := by
    apply getLast_filterMap_range _ body.length stem.length _ (by omega)
    · simp only [hed]
      simp [hgd, hone]
    · intro m hm1 hm2
      have hne : body[m]?.getD ' ' ≠ '.' := by
        rw [hb]
        obtain ⟨k, rfl⟩ : ∃ k, m = stem.length + 1 + k := ⟨m - stem.length - 1, by omega⟩
        rw [List.getElem?_append_right (by omega)]
        have hk : stem.length + 1 + k - stem.length = k + 1 := by omega
        rw [hk, List.getElem?_cons_succ]
        cases he : ext[k]? with
        | none => simp
        | some v =>
          have hv : v ∈ ext := List.getElem?_mem he
          simp only [Option.getD_some]
          intro hcontra
          exact hnd (hcontra ▸ hv)
      simp [hne]
  show matchUrl1 'h' ("ttp://".data ++ body) = _
  simp only [matchUrl1, hsl, hdrop7, htw, hlast]
  have hl7 : ("http://".data ++ body).length = 7 + stem.length + 1 + ext.length := by
    simp [List.length_append, hlenb]
    omega
  rw [show (7 : Nat) + stem.length + 1 + ext.length = ("http://".data ++ body).length
    from hl7.symm]
  rw [hfull, List.take_length]



theorem matchUrl1_noext_http (body : List Char)
    (hbc : ∀ c ∈ body, urlChar c = true)
    (hnoext : ∀ j, 1 ≤ j → j < body.length → body.getD j ' ' = '.' →
      extMatch (body.drop (j + 1)) = none) :
    matchUrl1 'h' ("ttp://".data ++ body) = none := by
  have hsl : schemeLenCI ('h' :: ("ttp://".data ++ body)) = some 7 := rfl
  have hdrop7 : ('h' :: ("ttp://".data ++ body)).drop 7 = body := rfl
  have htw : body.takeWhile urlChar = body := takeWhile_all _ _ hbc
  have hnil : ((List.range body.length).filterMap (fun j =>
      if 1 ≤ j ∧ body.getD j ' ' = '.' then
        match extMatch (body.drop (j + 1)) with
        | some e => some (j, e)
        | none => none
      else none)) = [] := by
    rw [List.filterMap_eq_nil_iff]
    intro j hj
    rw [List.mem_range] at hj
    by_cases hc : 1 ≤ j ∧ body.getD j ' ' = '.'
    · rw [if_pos hc, hnoext j hc.1 hj hc.2]
    · rw [if_neg hc]
  simp only [matchUrl1, hsl, hdrop7, htw, hnil]
  rfl

theorem matchUrl2_whole_http (body : List Char) (hne : body ≠ [])
    (hbc : ∀ c ∈ body, urlChar c = true) :
    matchUrl2 none 'h' ("ttp://".data ++ body) =
      some ("http://".data ++ body, ("http://".data ++ body).length - 1) := by
  have hfull : ('h' :: ("ttp://".data ++ body)) = "http://".data ++ body := rfl
  have hsl : schemeLenCS ('h' :: ("ttp://".data ++ body)) = some 7 := rfl
  have hdrop7 : ('h' :: ("ttp://".data ++ body)).drop 7 = body := rfl
  have htw : body.takeWhile urlChar = body := takeWhile_all _ _ hbc
  have hlz : ¬(body.length = 0) := fun h => hne (List.length_eq_zero.mp h)
  have hlfull : ('h' :: ("ttp://".data ++ body)).length = 7 + body.length := by
    simp [List.length_append]
    omega
  have hdnil : ('h' :: ("ttp://".data ++ body)).drop (7 + body.length) = [] := by
    apply List.drop_eq_nil_of_le
    omega
  have hhd : (('h' :: ("ttp://".data ++ body)).drop (7 + body.length)).head? = none := by
    rw [hdnil]
    rfl
  simp only [matchUrl2, if_pos rfl, hsl, hdrop7, htw, hlz, hhd]
  simp [hlz]
  constructor
  · omega
  · have h2 : ('h' :: ("ttp://".data ++ body)).length = ("http://".data ++ body).length := rfl
    omega



theorem matchUrl1_img_https (body stem ext : List Char)
    (hb : body = stem ++ '.' :: ext)
    (hbc : ∀ c ∈ body, urlChar c = true)
    (hstem : stem ≠ []) (hext : extMatch ext = some ext.length) :
    matchUrl1 'h' ("ttps://".data ++ body) =
      some ("https://".data ++ body, ("https://".data ++ body).length - 1) := by
  have hfull : ('h' :: ("ttps://".data ++ body)) = "https://".data ++ body := rfl
  have hsl : schemeLenCI ('h' :: ("ttps://".data ++ body)) = some 8 := rfl
  have hdrop8 : ('h' :: ("ttps://".data ++ body)).drop 8 = body := rfl
  have htw : body.takeWhile urlChar = body := takeWhile_all _ _ hbc
  have hone : 1 ≤ stem.length := length_pos_of_ne_nil hstem
  have hgd : body[stem.length]?.getD ' ' = '.' := by
    rw [hb, List.getElem?_append_right (Nat.le_refl _)]
    simp
  have hed : extMatch (body.drop (stem.length + 1)) = some ext.length := by
    rw [hb, drop_append_cons]
    exact hext
  have hnd : '.' ∉ ext := extNoDot ext hext
  have hlenb : body.length = stem.length + 1 + ext.length := by
    rw [hb]
    simp [List.length_append]
    omega
  have hlast : ((List.range body.length).filterMap (fun j =>
      if 1 ≤ j ∧ body.getD j ' ' = '.' then
        match extMatch (body.drop (j + 1)) with
        | some e => some (j, e)
        | none => none
      else none)).getLast? = some (stem.length, ext.length) := by
    apply getLast_filterMap_range _ body.length stem.length _ (by omega)
    · simp only [hed]
      simp [hgd, hone]
    · intro m hm1 hm2
      have hne : body[m]?.getD ' ' ≠ '.' := by
        rw [hb]
        obtain ⟨k, rfl⟩ : ∃ k, m = stem.length + 1 + k := ⟨m - stem.length - 1, by omega⟩
        rw [List.getElem?_append_right (by omega)]
        have hk : stem.length + 1 + k - stem.length = k + 1 := by omega
        rw [hk, List.getElem?_cons_succ]
        cases he : ext[k]? with
        | none => simp
        | some v =>
          have hv : v ∈ ext := List.getElem?_mem he
          simp only [Option.getD_some]
          intro hcontra
          exact hnd (hcontra ▸ hv)
      simp [hne]
  show matchUrl1 'h' ("ttps://".data ++ body) = _
  simp only [matchUrl1, hsl, hdrop8, htw, hlast]
  have hl8 : ("https://".data ++ body).length = 8 + stem.length + 1 + ext.length := by
    simp [List.length_append, hlenb]
    omega
  rw [show (8 : Nat) + stem.length + 1 + ext.length = ("https://".data ++ body).length
    from hl8.symm]
  rw [hfull, List.take_length]

theorem matchUrl1_noext_https (body : List Char)
    (hbc : ∀ c ∈ body, urlChar c = true)
    (hnoext : ∀ j, 1 ≤ j → j < body.length → body.getD j ' ' = '.' →
      extMatch (body.drop (j + 1)) = none) :
    matchUrl1 'h' ("ttps://".data ++ body) = none := by
  have hsl : schemeLenCI ('h' :: ("ttps://".data ++ body)) = some 8 := rfl
  have hdrop8 : ('h' :: ("ttps://".data ++ body)).drop 8 = body := rfl
  have htw : body.takeWhile urlChar = body := takeWhile_all _ _ hbc
  have hnil : ((List.range body.length).filterMap (fun j =>
      if 1 ≤ j ∧ body.getD j ' ' = '.' then
        match extMatch (body.drop (j + 1)) with
        | some e => some (j, e)
        | none => none
      else none)) = [] := by
    rw [List.filterMap_eq_nil_iff]
    intro j hj
    rw [List.mem_range] at hj
    by_cases hc : 1 ≤ j ∧ body.getD j ' ' = '.'
    · rw [if_pos hc, hnoext j hc.1 hj hc.2]
    · rw [if_neg hc]
  simp only [matchUrl1, hsl, hdrop8, htw, hnil]
  rfl

theorem matchUrl2_whole_https (body : List Char) (hne : body ≠ [])
    (hbc : ∀ c ∈ body, urlChar c = true) :
    matchUrl2 none 'h' ("ttps://".data ++ body) =
      some ("https://".data ++ body, ("https://".data ++ body).length - 1) := by
  have hfull : ('h' :: ("ttps://".data ++ body)) = "https://".data ++ body := rfl
  have hsl : schemeLenCS ('h' :: ("ttps://".data ++ body)) = some 8 := rfl
  have hdrop8 : ('h' :: ("ttps://".data ++ body)).drop 8 = body := rfl
  have htw : body.takeWhile urlChar = body := takeWhile_all _ _ hbc
  have hlz : ¬(body.length = 0) := fun h => hne (List.length_eq_zero.mp h)
  have hlfull : ('h' :: ("ttps://".data ++ body)).length = 8 + body.length := by
    simp [List.length_append]
    omega
  have hdnil : ('h' :: ("ttps://".data ++ body)).drop (8 + body.length) = [] := by
    apply List.drop_eq_nil_of_le
    omega
  have hhd : (('h' :: ("ttps://".data ++ body)).drop (8 + body.length)).head? = none := by
    rw [hdnil]
    rfl
  simp only [matchUrl2, if_pos rfl, hsl, hdrop8, htw, hlz, hhd]
  simp [hlz]
  constructor
  · omega
  · have h2 : ('h' :: ("ttps://".data ++ body)).length = ("https://".data ++ body).length := rfl
    omega

/-- Stages three to ten of format_inline leave a text free of backslash,
dollar, asterisk, backtick and sigma unchanged. -/
theorem laterStages_id (t : List Char)
    (h1 : '\\' ∉ t) (h2 : '$' ∉ t) (h3 : '*' ∉ t) (h4 : '`' ∉ t) (h5 : 'σ' ∉ t) :
    sigmaSub (runSub matchCode replCode (runSub matchEm replEm (runSub matchBold replBold
      (runSub matchDD replTexDisplay (runSubP matchDollar replTexInline
        (runSub matchTexDisplay replTexDisplay
          (runSub matchTexInline replTexInline t))))))) = t := by
  have e3 : runSub matchTexInline replTexInline t = t :=
    scanSub_skip _ _ _ _ (skipOK0_of_guard _ (fun c => decide (c = '\\'))
      (fun c cs hf => matchTexInline_guard c cs (by simpa using hf)) _
      (guard_of_not_mem _ _ h1))
  have e4 : runSub matchTexDisplay replTexDisplay t = t :=
    scanSub_skip _ _ _ _ (skipOK0_of_guard _ (fun c => decide (c = '\\'))
      (fun c cs hf => matchTexDisplay_guard c cs (by simpa using hf)) _
      (guard_of_not_mem _ _ h1))
  have e5 : runSubP matchDollar replTexInline t = t :=
    scanSubP_skip _ _ _ _ _ (skipOKP_of_guard _ (fun c => decide (c = '$'))
      (fun p c cs hf => matchDollar_guard p c cs (by simpa using hf)) _ none
      (guard_of_not_mem _ _ h2))
  have e6 : runSub matchDD replTexDisplay t = t :=
    scanSub_skip _ _ _ _ (skipOK0_of_guard _ (fun c => decide (c = '$'))
      (fun c cs hf => matchDD_guard c cs (by simpa using hf)) _
      (guard_of_not_mem _ _ h2))
  have e7 : runSub matchBold replBold t = t :=
    scanSub_skip _ _ _ _ (skipOK0_of_guard _ (fun c => decide (c = '*'))
      (fun c cs hf => matchBold_guard c cs (by simpa using hf)) _
      (guard_of_not_mem _ _ h3))
  have e8 : runSub matchEm replEm t = t :=
    scanSub_skip _ _ _ _ (skipOK0_of_guard _ (fun c => decide (c = '*'))
      (fun c cs hf => matchEm_guard c cs (by simpa using hf)) _
      (guard_of_not_mem _ _ h3))
  have e9 : runSub matchCode replCode t = t :=
    scanSub_skip _ _ _ _ (skipOK0_of_guard _ (fun c => decide (c = '`'))
      (fun c cs hf => matchCode_guard c cs (by simpa using hf)) _
      (guard_of_not_mem _ _ h4))
  have e10 : sigmaSub t = t := sigmaSub_id _ (fun c hc he => h5 (he ▸ hc))
  rw [e3, e4, e5, e6, e7, e8, e9, e10]

theorem hasHttp_scheme_tail_http (l : List Char) (h : hasHttp l = false) :
    hasHttp ("ttp://".data ++ l) = false := by
  have h6 : hasHttp ('/' :: l) = false := hasHttp_cons_break _ _ (by decide) h
  have h5 : hasHttp ('/' :: '/' :: l) = false := hasHttp_cons_break _ _ (by decide) h6
  have h4 : hasHttp (':' :: '/' :: '/' :: l) = false := hasHttp_cons_break _ _ (by decide) h5
  have h3 : hasHttp ('p' :: ':' :: '/' :: '/' :: l) = false :=
    hasHttp_cons_break _ _ (by decide) h4
  have h2 : hasHttp ('t' :: 'p' :: ':' :: '/' :: '/' :: l) = false :=
    hasHttp_cons_break _ _ (by decide) h3
  exact hasHttp_cons_break _ _ (by decide) h2

theorem hasHttp_scheme_tail_https (l : List Char) (h : hasHttp l = false) :
    hasHttp ("ttps://".data ++ l) = false := by
  have h7 : hasHttp ('/' :: l) = false := hasHttp_cons_break _ _ (by decide) h
  have h6 : hasHttp ('/' :: '/' :: l) = false := hasHttp_cons_break _ _ (by decide) h7
  have h5 : hasHttp (':' :: '/' :: '/' :: l) = false := hasHttp_cons_break _ _ (by decide) h6
  have h4 : hasHttp ('s' :: ':' :: '/' :: '/' :: l) = false :=
    hasHttp_cons_break _ _ (by decide) h5
  have h3 : hasHttp ('p' :: 's' :: ':' :: '/' :: '/' :: l) = false :=
    hasHttp_cons_break _ _ (by decide) h4
  have h2 : hasHttp ('t' :: 'p' :: 's' :: ':' :: '/' :: '/' :: l) = false :=
    hasHttp_cons_break _ _ (by decide) h3
  exact hasHttp_cons_break _ _ (by decide) h2



/-- C5: a line consisting of a single bare URL (scheme http or https, then a
nonempty body of URL-class characters carrying no second http occurrence and
none of the later-stage metacharacters) is rewritten by format_inline to an
img tag and nothing else: with a case-insensitive image extension at the end
the image rule produces the alt "Image" tag, and with no dot-extension
occurrence anywhere the remaining-URL rule produces the alt "Embedded
content" tag.  In both cases the output is exactly the img tag, so no plain
hyperlink is ever produced. -/
theorem c5_bare_urls :
    (∀ (scheme body stem ext : List Char),
      scheme = "http://".data ∨ scheme = "https://".data →
      body = stem ++ '.' :: ext → stem ≠ [] →
      extMatch ext = some ext.length →
      (∀ c ∈ body, urlChar c = true) →
      hasHttp body = false →
      (∀ c ∈ body, c ∉ ['$', '*', '\\', '`', 'σ']) →
      formatInline (scheme ++ body) = replImg1 (scheme ++ body)) ∧
    (∀ (scheme body : List Char),
      scheme = "http://".data ∨ scheme = "https://".data →
      body ≠ [] →
      (∀ c ∈ body, urlChar c = true) →
      hasHttp body = false →
      (∀ j, 1 ≤ j → j < body.length → body.getD j ' ' = '.' →
        extMatch (body.drop (j + 1)) = none) →
      (∀ c ∈ body, c ∉ ['$', '*', '\\', '`', 'σ']) →
      formatInline (scheme ++ body) = replImg2 (scheme ++ body)) := by
  have hspecs : ∀ (body : List Char), (∀ c ∈ body, c ∉ ['$', '*', '\\', '`', 'σ']) →
      '$' ∉ body ∧ '*' ∉ body ∧ '\\' ∉ body ∧ '`' ∉ body ∧ 'σ' ∉ body := by
    intro body h
    refine ⟨fun hm => h _ hm (by decide), fun hm => h _ hm (by decide),
      fun hm => h _ hm (by decide), fun hm => h _ hm (by decide),
      fun hm => h _ hm (by decide)⟩
  constructor
  · intro scheme body stem ext hs hb hstem hext hbc hbh hspec
    obtain ⟨hd, hst, hbs, hbt, hsg⟩ := hspecs body hspec
    rcases hs with rfl | rfl
    · -- http case
      have e1 : runSub matchUrl1 replImg1 ("http://".data ++ body) =
          replImg1 ("http://".data ++ body) :=
        runSub_whole _ _ 'h' ("ttp://".data ++ body)
          (matchUrl1_img_http body stem ext hb hbc hstem hext)
      have hskip : SkipOKP matchUrl2 none (replImg1 ("http://".data ++ body)) := by
        have hshape : replImg1 ("http://".data ++ body) =
            "<img src=\"".data ++ (("http://".data ++ body) ++
              "\" alt=\"Image\" class=\"embedded-image\">".data) := by
          simp [replImg1, List.append_assoc]
        rw [hshape]
        apply skipOKP_prefix matchUrl2 (fun c => decide (c = 'h'))
          (fun p c cs hf => matchUrl2_guard p c cs (by simpa using hf))
          _ _ none (guard_of_not_mem _ _ (by decide))
        have hpo : prevOut "<img src=\"".data none = some '"' := rfl
        rw [hpo]
        refine ⟨matchUrl2_blocked _ _ _ (Or.inl rfl), ?_⟩
        have hh : hasHttp (("ttp://".data ++ body) ++
            "\" alt=\"Image\" class=\"embedded-image\">".data) = false := by
          rw [List.append_assoc]
          apply hasHttp_scheme_tail_http
          exact hasHttp_append_break body '"' _ hbh (by decide) (by decide) (by decide)
            (by decide)
        exact skipOKP_url2 _ hh (some 'h')
      have e2 : runSubP matchUrl2 replImg2 (replImg1 ("http://".data ++ body)) =
          replImg1 ("http://".data ++ body) := by
        rw [runSubP_eq_runAtP]
        exact runAtP_skip _ _ _ _ hskip
      show sigmaSub (runSub matchCode replCode (runSub matchEm replEm (runSub matchBold
        replBold (runSub matchDD replTexDisplay (runSubP matchDollar replTexInline
          (runSub matchTexDisplay replTexDisplay (runSub matchTexInline replTexInline
            (runSubP matchUrl2 replImg2 (runSub matchUrl1 replImg1
              ("http://".data ++ body)))))))))) = _
      rw [e1, e2]
      apply laterStages_id
      · exact not_mem_appendC _ _ _ (not_mem_appendC _ _ _ (by decide)
          (not_mem_appendC _ _ _ (by decide) hbs)) (by decide)
      · exact not_mem_appendC _ _ _ (not_mem_appendC _ _ _ (by decide)
          (not_mem_appendC _ _ _ (by decide) hd)) (by decide)
      · exact not_mem_appendC _ _ _ (not_mem_appendC _ _ _ (by decide)
          (not_mem_appendC _ _ _ (by decide) hst)) (by decide)
      · exact not_mem_appendC _ _ _ (not_mem_appendC _ _ _ (by decide)
          (not_mem_appendC _ _ _ (by decide) hbt)) (by decide)
      · exact not_mem_appendC _ _ _ (not_mem_appendC _ _ _ (by decide)
          (not_mem_appendC _ _ _ (by decide) hsg)) (by decide)
    · -- https case
      have e1 : runSub matchUrl1 replImg1 ("https://".data ++ body) =
          replImg1 ("https://".data ++ body) :=
        runSub_whole _ _ 'h' ("ttps://".data ++ body)
          (matchUrl1_img_https body stem ext hb hbc hstem hext)
      have hskip : SkipOKP matchUrl2 none (replImg1 ("https://".data ++ body)) := by
        have hshape : replImg1 ("https://".data ++ body) =
            "<img src=\"".data ++ (("https://".data ++ body) ++
              "\" alt=\"Image\" class=\"embedded-image\">".data) := by
          simp [replImg1, List.append_assoc]
        rw [hshape]
        apply skipOKP_prefix matchUrl2 (fun c => decide (c = 'h'))
          (fun p c cs hf => matchUrl2_guard p c cs (by simpa using hf))
          _ _ none (guard_of_not_mem _ _ (by decide))
        have hpo : prevOut "<img src=\"".data none = some '"' := rfl
        rw [hpo]
        refine ⟨matchUrl2_blocked _ _ _ (Or.inl rfl), ?_⟩
        have hh : hasHttp (("ttps://".data ++ body) ++
            "\" alt=\"Image\" class=\"embedded-image\">".data) = false := by
          rw [List.append_assoc]
          apply hasHttp_scheme_tail_https
          exact hasHttp_append_break body '"' _ hbh (by decide) (by decide) (by decide)
            (by decide)
        exact skipOKP_url2 _ hh (some 'h')
      have e2 : runSubP matchUrl2 replImg2 (replImg1 ("https://".data ++ body)) =
          replImg1 ("https://".data ++ body) := by
        rw [runSubP_eq_runAtP]
        exact runAtP_skip _ _ _ _ hskip
      show sigmaSub (runSub matchCode replCode (runSub matchEm replEm (runSub matchBold
        replBold (runSub matchDD replTexDisplay (runSubP matchDollar replTexInline
          (runSub matchTexDisplay replTexDisplay (runSub matchTexInline replTexInline
            (runSubP matchUrl2 replImg2 (runSub matchUrl1 replImg1
              ("https://".data ++ body)))))))))) = _
      rw [e1, e2]
      apply laterStages_id
      · exact not_mem_appendC _ _ _ (not_mem_appendC _ _ _ (by decide)
          (not_mem_appendC _ _ _ (by decide) hbs)) (by decide)
      · exact not_mem_appendC _ _ _ (not_mem_appendC _ _ _ (by decide)
          (not_mem_appendC _ _ _ (by decide) hd)) (by decide)
      · exact not_mem_appendC _ _ _ (not_mem_appendC _ _ _ (by decide)
          (not_mem_appendC _ _ _ (by decide) hst)) (by decide)
      · exact not_mem_appendC _ _ _ (not_mem_appendC _ _ _ (by decide)
          (not_mem_appendC _ _ _ (by decide) hbt)) (by decide)
      · exact not_mem_appendC _ _ _ (not_mem_appendC _ _ _ (by decide)
          (not_mem_appendC _ _ _ (by decide) hsg)) (by decide)
  · intro scheme body hs hne hbc hbh hnoext hspec
    obtain ⟨hd, hst, hbs, hbt, hsg⟩ := hspecs body hspec
    rcases hs with rfl | rfl
    · have e1 : runSub matchUrl1 replImg1 ("http://".data ++ body) =
          "http://".data ++ body := by
        apply scanSub_skip
        exact ⟨matchUrl1_noext_http body hbc hnoext,
          skipOK0_url1 _ (hasHttp_scheme_tail_http body hbh)⟩
      have e2 : runSubP matchUrl2 replImg2 ("http://".data ++ body) =
          replImg2 ("http://".data ++ body) :=
        runSubP_whole _ _ 'h' ("ttp://".data ++ body)
          (matchUrl2_whole_http body hne hbc)
      show sigmaSub (runSub matchCode replCode (runSub matchEm replEm (runSub matchBold
        replBold (runSub matchDD replTexDisplay (runSubP matchDollar replTexInline
          (runSub matchTexDisplay replTexDisplay (runSub matchTexInline replTexInline
            (runSubP matchUrl2 replImg2 (runSub matchUrl1 replImg1
              ("http://".data ++ body)))))))))) = _
      rw [e1, e2]
      apply laterStages_id
      · exact not_mem_appendC _ _ _ (not_mem_appendC _ _ _ (by decide)
          (not_mem_appendC _ _ _ (by decide) hbs)) (by decide)
      · exact not_mem_appendC _ _ _ (not_mem_appendC _ _ _ (by decide)
          (not_mem_appendC _ _ _ (by decide) hd)) (by decide)
      · exact not_mem_appendC _ _ _ (not_mem_appendC _ _ _ (by decide)
          (not_mem_appendC _ _ _ (by decide) hst)) (by decide)
      · exact not_mem_appendC _ _ _ (not_mem_appendC _ _ _ (by decide)
          (not_mem_appendC _ _ _ (by decide) hbt)) (by decide)
      · exact not_mem_appendC _ _ _ (not_mem_appendC _ _ _ (by decide)
          (not_mem_appendC _ _ _ (by decide) hsg)) (by decide)
    · have e1 : runSub matchUrl1 replImg1 ("https://".data ++ body) =
          "https://".data ++ body := by
        apply scanSub_skip
        exact ⟨matchUrl1_noext_https body hbc hnoext,
          skipOK0_url1 _ (hasHttp_scheme_tail_https body hbh)⟩
      have e2 : runSubP matchUrl2 replImg2 ("https://".data ++ body) =
          replImg2 ("https://".data ++ body) :=
        runSubP_whole _ _ 'h' ("ttps://".data ++ body)
          (matchUrl2_whole_https body hne hbc)
      show sigmaSub (runSub matchCode replCode (runSub matchEm replEm (runSub matchBold
        replBold (runSub matchDD replTexDisplay (runSubP matchDollar replTexInline
          (runSub matchTexDisplay replTexDisplay (runSub matchTexInline replTexInline
            (runSubP matchUrl2 replImg2 (runSub matchUrl1 replImg1
              ("https://".data ++ body)))))))))) = _
      rw [e1, e2]
      apply laterStages_id
      · exact not_mem_appendC _ _ _ (not_mem_appendC _ _ _ (by decide)
          (not_mem_appendC _ _ _ (by decide) hbs)) (by decide)
      · exact not_mem_appendC _ _ _ (not_mem_appendC _ _ _ (by decide)
          (not_mem_appendC _ _ _ (by decide) hd)) (by decide)
      · exact not_mem_appendC _ _ _ (not_mem_appendC _ _ _ (by decide)
          (not_mem_appendC _ _ _ (by decide) hst)) (by decide)
      · exact not_mem_appendC _ _ _ (not_mem_appendC _ _ _ (by decide)
          (not_mem_appendC _ _ _ (by decide) hbt)) (by decide)
      · exact not_mem_appendC _ _ _ (not_mem_appendC _ _ _ (by decide)
          (not_mem_appendC _ _ _ (by decide) hsg)) (by decide)


theorem c5_witness :
    formatInline ("http://".data ++ "img.png".data) =
      replImg1 ("http://".data ++ "img.png".data) ∧
    formatInline ("https://".data ++ "a/page".data) =
      replImg2 ("https://".data ++ "a/page".data) :=
  ⟨c5_bare_urls.1 "http://".data "img.png".data "img".data "png".data (Or.inl rfl)
      (by decide) (by decide) (by decide) (by decide) (by decide) (by decide),
   c5_bare_urls.2 "https://".data "a/page".data (Or.inr rfl) (by decide) (by decide)
      (by decide)
      (fun j _ _ h3 => absurd h3 (getD_not_mem _ ' ' '.' (by decide) (by decide) j))
      (by decide)⟩

end PCA
